import Mathlib

/-!
# sensecore-openai-proxy: request rewriting and SSE re-framing

A shallow embedding of `main.go`.  Go strings are Lean strings, handled through
their character lists.  Go maps `map[string]interface{}` are association lists
read through `mapGet`; `mapSet` and `mapDelete` keep at most one binding per
key.  What the program asks of Go's standard library on bytes (`encoding/json`
on request bodies and events, `float64` rounding, the clock, HMAC-SHA256) is a
field of `Runtime`, `StreamRuntime` or `TokenRuntime`; the decoding of a
marshalled map into `ChatRequest`, the marshalling of the two token structs,
`base64.StdEncoding` and the header map of `net/http` are written out, following
their documented behaviour.
-/

namespace SenseProxy

/-! ## JSON values and Go maps -/

/-- Go `float64` values obtained by decoding JSON numbers are finite; each one
is represented by the rational number it denotes, and comparisons are the
comparisons of these rationals. -/
abbrev Float64 := ℚ

/-- What `encoding/json` stores in an `interface{}`: nil, bool, float64,
string, `[]interface{}` or `map[string]interface{}`. -/
inductive JValue where
  | null
  | bool (b : Bool)
  | number (x : Float64)
  | string (s : String)
  | array (xs : List JValue)
  | object (kvs : List (String × JValue))

/-- A Go `map[string]interface{}`. -/
abbrev Body := List (String × JValue)

/-- The two-result index expression `v, ok := m[k]`: `none` when `ok` is false. -/
def mapGet : Body → String → Option JValue
  | [], _ => none
  | (k', v) :: m, k => if k' = k then some v else mapGet m k

/-- The builtin `delete(m, k)`. -/
def mapDelete (m : Body) (k : String) : Body :=
  m.filter (fun e => decide (e.1 ≠ k))

/-- The assignment `m[k] = v`. -/
def mapSet (m : Body) (k : String) (v : JValue) : Body :=
  (k, v) :: mapDelete m k

/-- The type assertion `x.(float64)` on the result of a map index: it succeeds
only when the key is present and holds a number. -/
def asFloat64 : Option JValue → Option Float64
  | some (JValue.number x) => some x
  | _ => none

/-! ## Strings -/

/-- Go `strings.Contains` on character lists. -/
def containsChars : List Char → List Char → Bool
  | [], sub => sub.isEmpty
  | c :: cs, sub => sub.isPrefixOf (c :: cs) || containsChars cs sub

/-- Go `strings.Contains(s, substr)`. -/
def stringsContains (s substr : String) : Bool :=
  containsChars s.data substr.data

/-! ## Request bodies -/

/-- The part of `*http.Request` that `modifyRequestBody` reads. -/
structure Request where
  /-- The value of `r.Header.Get("Content-Type")`. -/
  contentType : String
  /-- The bytes of `r.Body`. -/
  body : String

/-- A byte slice holding a request body: either the output of `json.Marshal`
on a map, kept as the map it encodes, or the bytes read from the request. -/
inductive BodyBytes where
  | marshalled (body : Body)
  | raw (bytes : String)

/-- The Go type `ChatRequest`. -/
structure ChatRequest where
  MaxTokens : Int
  MaxNewTokens : Int
  FrequencyPenalty : Float64
  RepetitionPenalty : Float64
  TopP : Float64
  Model : String

/-- The standard-library behaviour the program depends on. -/
structure Runtime where
  /-- Decoding of a request body with `json.NewDecoder(r.Body).Decode(&body)`
  into a `map[string]interface{}`; `none` is a decoding error. -/
  decodeBody : String → Option Body
  /-- Rounding of an exact result to `float64` (IEEE 754 arithmetic returns the
  rounded exact result). -/
  round64 : ℚ → Float64
  /-- What `encoding/json` stores in an `int` field for a number that
  `json.Marshal` printed from the given `float64`: the integer its digits spell,
  or `none` when they are not the digits of an `int64`. -/
  intOfFloat : Float64 → Option Int
  /-- The call `json.Unmarshal(modifiedBody, &chatReq)` on bytes that were read
  from the request unchanged; `none` is an error. -/
  unmarshalRawChatRequest : String → Option ChatRequest

/-- Go `a + b` on `float64`. -/
def Runtime.fadd (rt : Runtime) (a b : Float64) : Float64 := rt.round64 (a + b)

/-- Go `a / b` on `float64`. -/
def Runtime.fdiv (rt : Runtime) (a b : Float64) : Float64 := rt.round64 (a / b)

/-- Lines 240-243 of `modifyRequestBody`: the `max_tokens` rule. -/
def renameMaxTokens (body : Body) : Body :=
  match mapGet body "max_tokens" with
  | some maxTokens => mapDelete (mapSet body "max_new_tokens" maxTokens) "max_tokens"
  | none => body

/-- Lines 245-248 of `modifyRequestBody`: the `frequency_penalty` rule. -/
def convertFrequencyPenalty (rt : Runtime) (body : Body) : Body :=
  match asFloat64 (mapGet body "frequency_penalty") with
  | some frequencyPenalty =>
    mapDelete
      (mapSet body "repetition_penalty" (JValue.number (rt.fdiv (rt.fadd frequencyPenalty 2) 2)))
      "frequency_penalty"
  | none => body

/-- Lines 250-256 of `modifyRequestBody`: the `top_p` rule.  The two constants
are written as the decimals of the source; `json.Marshal` prints the `float64`
values they are converted to as `0.000001` and `0.999999`. -/
def clampTopP (body : Body) : Body :=
  match asFloat64 (mapGet body "top_p") with
  | some topP =>
    if topP ≤ 0 then mapSet body "top_p" (JValue.number 0.000001)
    else if topP ≥ 1 then mapSet body "top_p" (JValue.number 0.999999)
    else body
  | none => body

/-- The function `modifyRequestBody`: on a JSON content type the body is decoded,
the three rules are applied in order and the map is marshalled; otherwise the
bytes are returned as read. -/
def modifyRequestBody (rt : Runtime) (r : Request) : Except String BodyBytes :=
  if r.contentType ≠ "" ∧ stringsContains r.contentType "application/json" = true then
    match rt.decodeBody r.body with
    | none => Except.error "decode"
    | some body =>
      Except.ok (BodyBytes.marshalled (clampTopP (convertFrequencyPenalty rt (renameMaxTokens body))))
  else
    Except.ok (BodyBytes.raw r.body)

/-! ## The stream re-framer -/

/-- Go `strings.Split(s, "\n")` on character lists: the pieces between the
newlines, always at least one. -/
def splitNewlineChars : List Char → List (List Char)
  | [] => [[]]
  | c :: cs =>
    if c = '\n' then [] :: splitNewlineChars cs
    else
      match splitNewlineChars cs with
      | [] => [[c]]
      | l :: ls => (c :: l) :: ls

/-- Go `strings.Split(s, "\n")`. -/
def stringsSplitNewline (s : String) : List String :=
  (splitNewlineChars s.data).map String.mk

/-- Go `strings.HasPrefix(s, p)`. -/
def stringsHasPrefix (s p : String) : Bool :=
  p.data.isPrefixOf s.data

/-- Go `unicode.IsSpace`. -/
def isSpace (c : Char) : Bool :=
  c = '\t' || c = '\n' || c.toNat = 0x0B || c.toNat = 0x0C || c = '\r' || c = ' ' ||
  c.toNat = 0x85 || c.toNat = 0xA0 || c.toNat = 0x1680 ||
  (0x2000 ≤ c.toNat && c.toNat ≤ 0x200A) ||
  c.toNat = 0x2028 || c.toNat = 0x2029 || c.toNat = 0x202F || c.toNat = 0x205F ||
  c.toNat = 0x3000

/-- Go `strings.TrimSpace`. -/
def stringsTrimSpace (s : String) : String :=
  String.mk ((s.data.dropWhile isSpace).reverse.dropWhile isSpace).reverse

/-- The slice expression `s[n:]`, used where the first `n` bytes of `s` are
ASCII characters. -/
def sliceFrom (s : String) (n : Nat) : String :=
  String.mk (s.data.drop n)

/-- The `usage` object of an upstream event. -/
structure SenseUsage where
  PromptTokens : Int
  CompletionTokens : Int
  KnowledgeTokens : Int
  TotalTokens : Int

/-- One element of the `choices` list of an upstream event. -/
structure SenseChoice where
  Index : Int
  Role : String
  Delta : String
  ReasoningContent : String
  FinishReason : String

/-- The `data` object of an upstream event. -/
structure SenseData where
  ID : String
  Usage : SenseUsage
  Choices : List SenseChoice
  Plugins : Body

/-- The `status` object of an upstream event. -/
structure SenseStatus where
  Code : Int
  Message : String

/-- The Go type `SenseAPIResponse`. -/
structure SenseAPIResponse where
  Data : SenseData
  Status : SenseStatus

/-- The Go type `Choice`; its three `interface{}` fields hold JSON values. -/
structure Choice where
  Index : Int
  Delta : JValue
  Logprobs : JValue
  FinishReason : JValue

/-- The Go type `OpenAIResponse`. -/
structure OpenAIResponse where
  ID : String
  Object : String
  Created : Int
  Model : String
  SystemFingerprint : String
  Choices : List Choice

/-- The standard-library behaviour the re-framer depends on, with the clock
held fixed. -/
structure StreamRuntime where
  /-- The call `json.Unmarshal([]byte(dataStr), &data)` into a
  `SenseAPIResponse`; `none` is an error. -/
  unmarshalEvent : String → Option SenseAPIResponse
  /-- The call `json.Marshal(transformedData)`; `none` is an error. -/
  marshalEvent : OpenAIResponse → Option String
  /-- The value of `time.Now().Unix()`. -/
  now : Int

/-- The body of the loop over `data.Data.Choices` in `transformSSEChunk`
(lines 297-325): the client choice built from one upstream choice. -/
def transformChoice (choice : SenseChoice) : Choice :=
  let deltaMap : Body := []
  let deltaMap :=
    if choice.Delta ≠ "" then mapSet deltaMap "content" (JValue.string choice.Delta)
    else deltaMap
  let deltaMap :=
    if choice.ReasoningContent ≠ "" then
      mapSet deltaMap "reasoning_content" (JValue.string choice.ReasoningContent)
    else deltaMap
  let deltaMap : Body := if deltaMap.length = 0 then [] else deltaMap
  let finishReason : JValue :=
    if choice.FinishReason ≠ "" then JValue.string choice.FinishReason else JValue.null
  { Index := choice.Index
    Delta := JValue.object deltaMap
    Logprobs := JValue.null
    FinishReason := finishReason }

/-- The value `transformedData` of `transformSSEChunk` once its choices are
filled in (lines 287-326). -/
def transformEvent (rt : StreamRuntime) (originalModel : String) (data : SenseAPIResponse) :
    OpenAIResponse :=
  { ID := data.Data.ID
    Object := "chat.completion.chunk"
    Created := rt.now
    Model := originalModel
    SystemFingerprint := "cf-openai-sensechat-proxy-123"
    Choices := data.Data.Choices.map transformChoice }

/-- One iteration of the loop over `lines` in `transformSSEChunk` (lines
273-335): the value of `result` after the line. -/
def transformLine (rt : StreamRuntime) (originalModel : String) (result line : String) :
    String :=
  if stringsHasPrefix line "data:" = true then
    let dataStr := stringsTrimSpace (sliceFrom line 5)
    if dataStr = "[DONE]" then
      result ++ "data: [DONE]\n\n"
    else
      match rt.unmarshalEvent dataStr with
      | none => result
      | some data =>
        match rt.marshalEvent (transformEvent rt originalModel data) with
        | some jsonData => result ++ "data: " ++ jsonData ++ "\n\n"
        | none => result
  else if line ≠ "" then
    result ++ line ++ "\n\n"
  else
    result

/-- The function `transformSSEChunk`. -/
def transformSSEChunk (rt : StreamRuntime) (chunkStr originalModel : String) : String :=
  (stringsSplitNewline chunkStr).foldl (transformLine rt originalModel) ""

/-- The state of the streaming loop of `handleRequest`: the global `buffer` and
the byte strings passed to `w.Write` so far, oldest first. -/
structure StreamState where
  buffer : String
  written : List String

/-- One iteration of the streaming loop of `handleRequest` (lines 176-184) on
the line returned by `scanner.Text()`. -/
def streamStep (rt : StreamRuntime) (originalModel : String) (st : StreamState)
    (line : String) : StreamState :=
  let buffer := st.buffer ++ (line ++ "\n")
  if line = "" then
    { buffer := "", written := st.written ++ [transformSSEChunk rt buffer originalModel] }
  else
    { buffer := buffer, written := st.written }

/-- The streaming loop of `handleRequest` (lines 173-185) over the lines
`scanner.Text()` returns, in order, until `scanner.Scan()` reports the end of the
upstream body or an error. -/
def streamLoop (rt : StreamRuntime) (originalModel : String) (lines : List String) :
    StreamState :=
  lines.foldl (streamStep rt originalModel) { buffer := "", written := [] }

/-! ## The model name captured by `handleRequest`

`handleRequest` decodes the bytes `modifyRequestBody` returned into a
`ChatRequest`.  On bytes that `json.Marshal` made from a map, this is Go's
decoding of a JSON object into a struct: the members are visited in the order
`json.Marshal` wrote them, which is the order of their keys; a key selects the
field whose name it equals, or else the field whose name it equals under case
folding; a value that does not fit the field's type is recorded as an error and
skipped, and `null` changes nothing. -/

/-- The order of `strings.Compare`, in which `json.Marshal` sorts the keys of a
map: the order of the UTF-8 encodings, which is that of the code points. -/
def keyLess : List Char → List Char → Bool
  | _, [] => false
  | [], _ :: _ => true
  | a :: as, b :: bs => decide (a.toNat < b.toNat) || (decide (a.toNat = b.toNat) && keyLess as bs)

/-- Whether one member is written no later than another by `json.Marshal`. -/
def memberLE (e₁ e₂ : String × JValue) : Prop :=
  keyLess e₂.1.data e₁.1.data = false

instance : DecidableRel memberLE := fun e₁ e₂ =>
  inferInstanceAs (Decidable (keyLess e₂.1.data e₁.1.data = false))

/-- The members `json.Marshal` writes for a map, in the order it writes them:
one per key, sorted by key. -/
def marshalledMembers (body : Body) : List (String × JValue) :=
  (body.foldr (fun e acc => mapSet acc e.1 e.2) []).insertionSort memberLE

/-- The fields of `ChatRequest`. -/
inductive ChatField where
  | maxTokens
  | maxNewTokens
  | frequencyPenalty
  | repetitionPenalty
  | topP
  | model
  deriving DecidableEq

/-- The name in the `json` tag of a field. -/
def ChatField.jsonName : ChatField → String
  | ChatField.maxTokens => "max_tokens"
  | ChatField.maxNewTokens => "max_new_tokens"
  | ChatField.frequencyPenalty => "frequency_penalty"
  | ChatField.repetitionPenalty => "repetition_penalty"
  | ChatField.topP => "top_p"
  | ChatField.model => "model"

/-- The fields of `ChatRequest` in declaration order. -/
def chatFields : List ChatField :=
  [ChatField.maxTokens, ChatField.maxNewTokens, ChatField.frequencyPenalty,
    ChatField.repetitionPenalty, ChatField.topP, ChatField.model]

/-- Case folding of one character as `encoding/json` does for key matching:
ASCII letters go to upper case; outside ASCII the Kelvin sign folds to `K` and
the long s to `S`, the only characters whose fold is an ASCII character. -/
def foldChar (c : Char) : Char :=
  if c.toNat < 128 then
    if 97 ≤ c.toNat ∧ c.toNat ≤ 122 then Char.ofNat (c.toNat - 32) else c
  else if c.toNat = 0x212A then 'K'
  else if c.toNat = 0x17F then 'S'
  else c

/-- The folded form of a key, `foldName` of `encoding/json`. -/
def foldName (s : String) : String :=
  String.mk (s.data.map foldChar)

/-- The field a key selects: the one with that exact name, or else the one
with that name under case folding. -/
def findField (key : String) : Option ChatField :=
  match chatFields.find? (fun f => decide (f.jsonName = key)) with
  | some f => some f
  | none => chatFields.find? (fun f => decide (foldName f.jsonName = foldName key))

/-- The state of `json.Unmarshal` into a `ChatRequest`: the struct being filled
and the first error saved. -/
structure UnmarshalState where
  value : ChatRequest
  savedError : Option String

/-- Recording of a type error: only the first one is kept. -/
def UnmarshalState.saveError (st : UnmarshalState) (e : String) : UnmarshalState :=
  match st.savedError with
  | none => { st with savedError := some e }
  | some _ => st

/-- Decoding of one value into one field of `ChatRequest`. -/
def assignField (rt : Runtime) (st : UnmarshalState) (f : ChatField) (v : JValue) :
    UnmarshalState :=
  match v, f with
  | JValue.null, _ => st
  | JValue.string s, ChatField.model => { st with value := { st.value with Model := s } }
  | JValue.number x, ChatField.maxTokens =>
    match rt.intOfFloat x with
    | some n => { st with value := { st.value with MaxTokens := n } }
    | none => st.saveError "number into int"
  | JValue.number x, ChatField.maxNewTokens =>
    match rt.intOfFloat x with
    | some n => { st with value := { st.value with MaxNewTokens := n } }
    | none => st.saveError "number into int"
  | JValue.number x, ChatField.frequencyPenalty =>
    { st with value := { st.value with FrequencyPenalty := x } }
  | JValue.number x, ChatField.repetitionPenalty =>
    { st with value := { st.value with RepetitionPenalty := x } }
  | JValue.number x, ChatField.topP => { st with value := { st.value with TopP := x } }
  | _, _ => st.saveError "value of another type"

/-- Decoding of one member of the object. -/
def unmarshalMember (rt : Runtime) (st : UnmarshalState) (e : String × JValue) :
    UnmarshalState :=
  match findField e.1 with
  | some f => assignField rt st f e.2
  | none => st

/-- Whether a value decodes into a field without a type error. -/
def fitsField (rt : Runtime) (f : ChatField) (v : JValue) : Bool :=
  match v, f with
  | JValue.null, _ => true
  | JValue.string _, ChatField.model => true
  | JValue.number x, ChatField.maxTokens => (rt.intOfFloat x).isSome
  | JValue.number x, ChatField.maxNewTokens => (rt.intOfFloat x).isSome
  | JValue.number _, ChatField.frequencyPenalty => true
  | JValue.number _, ChatField.repetitionPenalty => true
  | JValue.number _, ChatField.topP => true
  | _, _ => false

/-- The zero value of `ChatRequest`, which `var chatReq ChatRequest` declares. -/
def ChatRequest.zero : ChatRequest :=
  { MaxTokens := 0, MaxNewTokens := 0, FrequencyPenalty := 0, RepetitionPenalty := 0,
    TopP := 0, Model := "" }

/-- The state `json.Unmarshal` ends in on the bytes marshalled from a map. -/
def unmarshalState (rt : Runtime) (body : Body) : UnmarshalState :=
  (marshalledMembers body).foldl (unmarshalMember rt)
    { value := ChatRequest.zero, savedError := none }

/-- The call `json.Unmarshal(modifiedBody, &chatReq)`: the struct as filled, and
whether an error is returned. -/
def unmarshalChatRequest (rt : Runtime) (modifiedBody : BodyBytes) : Option ChatRequest :=
  match modifiedBody with
  | BodyBytes.marshalled body =>
    match (unmarshalState rt body).savedError with
    | none => some (unmarshalState rt body).value
    | some _ => none
  | BodyBytes.raw bytes => rt.unmarshalRawChatRequest bytes

/-- Lines 165-171 of `handleRequest`: the value of `originalModel` when the
streaming loop starts.  It stays empty when `json.Unmarshal` returns an error. -/
def captureOriginalModel (rt : Runtime) (modifiedBody : BodyBytes) : String :=
  match unmarshalChatRequest rt modifiedBody with
  | some chatReq => chatReq.Model
  | none => ""

/-- The streaming branch of `handleRequest` for the matched path: the body is
rewritten, the model name is captured from the rewritten bytes, and the lines of
the upstream response go through the streaming loop.  The result is the list of
writes to the client, or the error answered when the body cannot be rewritten. -/
def handleRequestStream (rt : Runtime) (srt : StreamRuntime) (r : Request)
    (lines : List String) : Except String (List String) :=
  match modifyRequestBody rt r with
  | Except.error _ => Except.error "Failed to modify request body"
  | Except.ok modifiedBody =>
    Except.ok (streamLoop srt (captureOriginalModel rt modifiedBody) lines).written

/-- The bytes the client has received: the writes, concatenated in order. -/
def joinWrites (ws : List String) : String :=
  ws.foldr (fun w rest => w ++ rest) ""

/-- The upstream text whose lines, as the scanner returns them, are `lines`:
each line followed by its line break. -/
def linesText (lines : List String) : String :=
  lines.foldr (fun line rest => line ++ "\n" ++ rest) ""

/-! ## Bytes and base64 -/

/-- An element of a Go `[]byte`. -/
abbrev Byte := Fin 256

/-- The byte with the given value, taken modulo 256. -/
def byteOf (n : Nat) : Byte :=
  ⟨n % 256, Nat.mod_lt n (by decide)⟩

/-- The UTF-8 encoding of one character. -/
def utf8EncodeChar (c : Char) : List Byte :=
  let n := c.toNat
  if n < 0x80 then [byteOf n]
  else if n < 0x800 then [byteOf (0xC0 + n / 64), byteOf (0x80 + n % 64)]
  else if n < 0x10000 then
    [byteOf (0xE0 + n / 4096), byteOf (0x80 + n / 64 % 64), byteOf (0x80 + n % 64)]
  else
    [byteOf (0xF0 + n / 262144), byteOf (0x80 + n / 4096 % 64), byteOf (0x80 + n / 64 % 64),
      byteOf (0x80 + n % 64)]

/-- The conversion `[]byte(s)`: the UTF-8 bytes of a string. -/
def stringBytes (s : String) : List Byte :=
  (s.data.map utf8EncodeChar).flatten

/-- The alphabet of `base64.StdEncoding`. -/
def base64StdAlphabet : List Char :=
  "ABCDEFGHIJKLMNOPQRSTUVWXYZabcdefghijklmnopqrstuvwxyz0123456789+/".data

/-- The character of `base64.StdEncoding` for a six-bit value. -/
def base64StdChar (i : Nat) : Char :=
  base64StdAlphabet.getD i '='

/-- Go `base64.StdEncoding.EncodeToString` as a list of characters: three bytes
give four characters, and a last group of one or two bytes is padded with `=`. -/
def base64StdEncode : List Byte → List Char
  | [] => []
  | [a] => [base64StdChar (a.val / 4), base64StdChar (a.val % 4 * 16), '=', '=']
  | [a, b] =>
    [base64StdChar (a.val / 4), base64StdChar (a.val % 4 * 16 + b.val / 16),
      base64StdChar (b.val % 16 * 4), '=']
  | a :: b :: c :: rest =>
    base64StdChar (a.val / 4) :: base64StdChar (a.val % 4 * 16 + b.val / 16) ::
      base64StdChar (b.val % 16 * 4 + c.val / 64) :: base64StdChar (c.val % 64) ::
      base64StdEncode rest

/-- Go `strings.ReplaceAll(s, old, new)` for one-character `old` and `new`. -/
def stringsReplaceAll (s : String) (old new : Char) : String :=
  String.mk (s.data.map (fun c => if c = old then new else c))

/-- Go `strings.TrimRight(s, cutset)`. -/
def stringsTrimRight (s cutset : String) : String :=
  String.mk (s.data.reverse.dropWhile (fun c => decide (c ∈ cutset.data))).reverse

/-- The function `base64UrlEncode`. -/
def base64UrlEncode (data : List Byte) : String :=
  let encoded := String.mk (base64StdEncode data)
  let encoded := stringsReplaceAll encoded '+' '-'
  let encoded := stringsReplaceAll encoded '/' '_'
  let encoded := stringsTrimRight encoded "="
  encoded

/-- The URL-safe alphabet of RFC 4648: `A`-`Z`, `a`-`z`, `0`-`9`, `-` and `_`. -/
def base64UrlAlphabet : List Char :=
  "ABCDEFGHIJKLMNOPQRSTUVWXYZabcdefghijklmnopqrstuvwxyz0123456789-_".data

/-- The URL-safe character for a six-bit value. -/
def base64UrlChar (i : Nat) : Char :=
  base64UrlAlphabet.getD i '='

/-- The unpadded URL-safe base64 encoding of RFC 4648, written from its
definition: three bytes give four characters, a last group of one byte gives two
and of two bytes gives three. -/
def rawUrlEncode : List Byte → List Char
  | [] => []
  | [a] => [base64UrlChar (a.val / 4), base64UrlChar (a.val % 4 * 16)]
  | [a, b] =>
    [base64UrlChar (a.val / 4), base64UrlChar (a.val % 4 * 16 + b.val / 16),
      base64UrlChar (b.val % 16 * 4)]
  | a :: b :: c :: rest =>
    base64UrlChar (a.val / 4) :: base64UrlChar (a.val % 4 * 16 + b.val / 16) ::
      base64UrlChar (b.val % 16 * 4 + c.val / 64) :: base64UrlChar (c.val % 64) ::
      rawUrlEncode rest

/-- The six-bit value of a character of the URL-safe alphabet. -/
def base64UrlValue (c : Char) : Option Nat :=
  if 65 ≤ c.toNat ∧ c.toNat ≤ 90 then some (c.toNat - 65)
  else if 97 ≤ c.toNat ∧ c.toNat ≤ 122 then some (c.toNat - 97 + 26)
  else if 48 ≤ c.toNat ∧ c.toNat ≤ 57 then some (c.toNat - 48 + 52)
  else if c = '-' then some 62
  else if c = '_' then some 63
  else none

/-- Decoding of unpadded URL-safe base64: four characters give three bytes, a
last group of two characters gives one byte and of three gives two; a single
left-over character, or a character outside the alphabet, is an error. -/
def rawUrlDecode : List Char → Option (List Byte)
  | [] => some []
  | [_] => none
  | [c₀, c₁] =>
    match base64UrlValue c₀, base64UrlValue c₁ with
    | some v₀, some v₁ => some [byteOf (v₀ * 4 + v₁ / 16)]
    | _, _ => none
  | [c₀, c₁, c₂] =>
    match base64UrlValue c₀, base64UrlValue c₁, base64UrlValue c₂ with
    | some v₀, some v₁, some v₂ =>
      some [byteOf (v₀ * 4 + v₁ / 16), byteOf (v₁ % 16 * 16 + v₂ / 4)]
    | _, _, _ => none
  | c₀ :: c₁ :: c₂ :: c₃ :: rest =>
    match base64UrlValue c₀, base64UrlValue c₁, base64UrlValue c₂, base64UrlValue c₃,
      rawUrlDecode rest with
    | some v₀, some v₁, some v₂, some v₃, some tail =>
      some (byteOf (v₀ * 4 + v₁ / 16) :: byteOf (v₁ % 16 * 16 + v₂ / 4) ::
        byteOf (v₂ % 4 * 64 + v₃) :: tail)
    | _, _, _, _, _ => none

/-! ## The token minter -/

/-- The Go type `JWTHeader`. -/
structure JWTHeader where
  Alg : String
  Typ : String

/-- The Go type `JWTPayload`. -/
structure JWTPayload where
  Iss : String
  Exp : Int
  Nbf : Int

/-- The standard-library behaviour the token minter depends on. -/
structure TokenRuntime where
  /-- The digest of `hmac.New(sha256.New, key)` after `Write(message)`: the
  arguments are the key and the message. -/
  hmacSHA256 : List Byte → List Byte → List Byte
  /-- What `json.Marshal` writes for a character of a string that it does not
  copy as it is. -/
  jsonEscape : Char → List Char

/-- The characters of a string that `json.Marshal` does not copy as they are:
control characters, the quote, the backslash, `<`, `>`, `&`, and the line and
paragraph separators. -/
def jsonNeedsEscape (c : Char) : Bool :=
  decide (c.toNat < 0x20) || c = '"' || c = '\\' || c = '<' || c = '>' || c = '&' ||
    decide (c.toNat = 0x2028) || decide (c.toNat = 0x2029)

/-- The JSON text `json.Marshal` writes for a string field. -/
def jsonString (trt : TokenRuntime) (s : String) : String :=
  "\"" ++ String.mk (s.data.map (fun c => if jsonNeedsEscape c then trt.jsonEscape c else [c])).flatten
    ++ "\""

/-- The call `json.Marshal(header)` on a `JWTHeader`. -/
def jsonMarshalHeader (trt : TokenRuntime) (header : JWTHeader) : Except String (List Byte) :=
  Except.ok (stringBytes
    ("\x7b\"alg\":" ++ jsonString trt header.Alg ++ ",\"typ\":" ++ jsonString trt header.Typ
      ++ "\x7d"))

/-- The call `json.Marshal(payload)` on a `JWTPayload`. -/
def jsonMarshalPayload (trt : TokenRuntime) (payload : JWTPayload) : Except String (List Byte) :=
  Except.ok (stringBytes
    ("\x7b\"iss\":" ++ jsonString trt payload.Iss ++ ",\"exp\":" ++ toString payload.Exp
      ++ ",\"nbf\":" ++ toString payload.Nbf ++ "\x7d"))

/-- The value of an `int64` computation whose exact result is `x`. -/
def wrapInt64 (x : Int) : Int :=
  (x + 2 ^ 63) % 2 ^ 64 - 2 ^ 63

/-- The payload built by `encodeJWTToken` (lines 378-383) when `time.Now().Unix()`
is `now`. -/
def jwtPayload (now : Int) (ak : String) : JWTPayload :=
  { Iss := ak
    Exp := wrapInt64 (now + 120)
    Nbf := wrapInt64 (now - 5) }

/-- The function `encodeJWTToken`, with `time.Now().Unix()` equal to `now`. -/
def encodeJWTToken (trt : TokenRuntime) (now : Int) (ak sk : String) : Except String String :=
  let header : JWTHeader := { Alg := "HS256", Typ := "JWT" }
  let payload := jwtPayload now ak
  match jsonMarshalHeader trt header with
  | Except.error err => Except.error err
  | Except.ok headerJSON =>
    match jsonMarshalPayload trt payload with
    | Except.error err => Except.error err
    | Except.ok payloadJSON =>
      let headerEncoded := base64UrlEncode headerJSON
      let payloadEncoded := base64UrlEncode payloadJSON
      let unsignedToken := headerEncoded ++ "." ++ payloadEncoded
      let signature := trt.hmacSHA256 (stringBytes sk) (stringBytes unsignedToken)
      let signatureEncoded := base64UrlEncode signature
      Except.ok (unsignedToken ++ "." ++ signatureEncoded)

/-- The JSON text `{"alg":"HS256","typ":"JWT"}`. -/
def jwtHeaderText : String := "\x7b\"alg\":\"HS256\",\"typ\":\"JWT\"\x7d"

/-! ## Headers -/

/-- A Go `http.Header`, a map from header names to their values.  The names are
in canonical form, as `net/http` stores them, so `Get`, `Add` and `Set` with a
name from the map or with a canonical literal use the name as it is.  The map is
read through `headerValues`, which takes the first binding of a name. -/
abbrev HTTPHeader := List (String × List String)

/-- The index expression `h[key]`: the values of a header, `nil` when it is
absent. -/
def headerValues : HTTPHeader → String → List String
  | [], _ => []
  | (k, vs) :: h, key => if k = key then vs else headerValues h key

/-- Go `h.Get(key)`: the first value of the header, or `""`. -/
def headerGet (h : HTTPHeader) (key : String) : String :=
  match headerValues h key with
  | [] => ""
  | v :: _ => v

/-- The assignment `h[key] = values`. -/
def headerPut (h : HTTPHeader) (key : String) (values : List String) : HTTPHeader :=
  (key, values) :: h.filter (fun e => decide (e.1 ≠ key))

/-- Go `h.Add(key, value)`. -/
def headerAdd (h : HTTPHeader) (key value : String) : HTTPHeader :=
  headerPut h key (headerValues h key ++ [value])

/-- Go `h.Set(key, value)`. -/
def headerSet (h : HTTPHeader) (key value : String) : HTTPHeader :=
  headerPut h key [value]

/-- The entries a `range` over the map visits: one per header name. -/
def headerEntries (h : HTTPHeader) : HTTPHeader :=
  h.foldr (fun e acc => headerPut acc e.1 e.2) []

/-- The loops `for key, values := range src { for _, value := range values {
dst.Add(key, value) } }` of `handleRequest` (lines 116-120 and 150-154). -/
def copyHeaders (src dst : HTTPHeader) : HTTPHeader :=
  (headerEntries src).foldl (fun d e => e.2.foldl (fun d v => headerAdd d e.1 v) d) dst

/-- Go `strings.Split(s, sep)` on character lists, for a one-character `sep`. -/
def splitChars (sep : Char) : List Char → List (List Char)
  | [] => [[]]
  | c :: cs =>
    if c = sep then [] :: splitChars sep cs
    else
      match splitChars sep cs with
      | [] => [[c]]
      | l :: ls => (c :: l) :: ls

/-- Go `strings.Split(s, sep)` for a one-character `sep`. -/
def stringsSplit (s : String) (sep : Char) : List String :=
  (splitChars sep s.data).map String.mk

/-- Go `strings.Join(pieces, sep)` on character lists, for a one-character
`sep`. -/
def joinChars (sep : Char) : List (List Char) → List Char
  | [] => []
  | [p] => p
  | p :: q :: rest => p ++ sep :: joinChars sep (q :: rest)

/-- Lines 123-131 of `handleRequest`: the access key and the secret key passed to
`encodeJWTToken` for the value of the Authorization header, or `none` when no
token is minted. -/
def tokenArguments (authHeader : String) : Option (String × String) :=
  if authHeader ≠ "" then
    match stringsSplit authHeader ' ' with
    | _ :: aksk :: _ =>
      if stringsContains aksk "|" = true then
        match stringsSplit aksk '|' with
        | [ak, sk] => some (ak, sk)
        | _ => none
      else none
    | _ => none
  else none

/-- Lines 115-139 of `handleRequest`: the header of `modifiedRequest` built from
the header of the inbound request, with `time.Now().Unix()` equal to `now`. -/
def outboundHeader (trt : TokenRuntime) (now : Int) (inbound : HTTPHeader) : HTTPHeader :=
  let out := copyHeaders inbound []
  match tokenArguments (headerGet inbound "Authorization") with
  | some (ak, sk) =>
    match encodeJWTToken trt now ak sk with
    | Except.ok apiToken => headerSet out "Authorization" ("Bearer " ++ apiToken)
    | Except.error _ => out
  | none => out

/-! ## The response head -/

/-- The part of the upstream `*http.Response` that `handleRequest` reads before
the body. -/
structure UpstreamResponse where
  StatusCode : Nat
  Header : HTTPHeader

/-- An `http.ResponseWriter`: the header map `w.Header()` returns, and the status
and header committed by `WriteHeader`, if any.  As `net/http` documents, changing
the header map after the call to `WriteHeader` has no effect on what is sent,
unless the status was informational (1xx other than 101). -/
structure ResponseWriter where
  header : HTTPHeader
  committed : Option (Nat × HTTPHeader)

/-- Go `w.Header().Set(key, value)`. -/
def ResponseWriter.setHeader (w : ResponseWriter) (key value : String) : ResponseWriter :=
  { w with header := headerSet w.header key value }

/-- Go `w.WriteHeader(code)`. -/
def ResponseWriter.WriteHeader (w : ResponseWriter) (code : Nat) : ResponseWriter :=
  match w.committed with
  | some _ => w
  | none =>
    if 100 ≤ code ∧ code ≤ 199 ∧ code ≠ 101 then w
    else { w with committed := some (code, w.header) }

/-- The status and header of the response head the client receives: those
committed by `WriteHeader`, or else status 200 with the header map as it is when
the first byte is written. -/
def ResponseWriter.head (w : ResponseWriter) : Nat × HTTPHeader :=
  match w.committed with
  | some h => h
  | none => (200, w.header)

/-- Lines 149-163 of `handleRequest`: what is done to the response writer between
the upstream response and the first byte of the body. -/
def writeResponseHead (headersOrigin : String) (resp : UpstreamResponse)
    (w : ResponseWriter) : ResponseWriter :=
  let w := { w with header := copyHeaders resp.Header w.header }
  let w := w.setHeader "Access-Control-Allow-Origin" headersOrigin
  let w := w.WriteHeader resp.StatusCode
  if headerGet resp.Header "Content-Type" = "text/event-stream" then
    let w := w.setHeader "Content-Type" "text/event-stream; charset=utf-8"
    let w := w.setHeader "Cache-Control" "no-cache"
    w.setHeader "Connection" "keep-alive"
  else
    w

/-! ## Sample inputs -/

/-- The request body `{"max_tokens":256,"max_new_tokens":1,"user":"u1"}`. -/
def sampleBodyMaxTokens : String :=
  "\x7b\"max_tokens\":256,\"max_new_tokens\":1,\"user\":\"u1\"\x7d"

/-- The request body `{"frequency_penalty":"high"}`. -/
def sampleBodyPenaltyText : String := "\x7b\"frequency_penalty\":\"high\"\x7d"

/-- The request body `{"frequency_penalty":1}`. -/
def sampleBodyPenaltyOne : String := "\x7b\"frequency_penalty\":1\x7d"

/-- The request body `{"top_p":-1}`. -/
def sampleBodyTopPLow : String := "\x7b\"top_p\":-1\x7d"

/-- The request body `{"top_p":2}`. -/
def sampleBodyTopPHigh : String := "\x7b\"top_p\":2\x7d"

/-- The request body `{"top_p":0.5}`. -/
def sampleBodyTopPMid : String := "\x7b\"top_p\":0.5\x7d"

/-- The request body `{"model":"m","top_p":"0.9"}`. -/
def sampleBodyModelBadTopP : String := "\x7b\"model\":\"m\",\"top_p\":\"0.9\"\x7d"

/-- The request body `{"model":"m","max_tokens":256}`. -/
def sampleBodyModel : String := "\x7b\"model\":\"m\",\"max_tokens\":256\x7d"

/-- The upstream payload `{"data":{"id":"c1","choices":[{"index":0,"delta":"He"}]}}`. -/
def sampleEventText : String :=
  "\x7b\"data\":\x7b\"id\":\"c1\",\"choices\":[\x7b\"index\":0,\"delta\":\"He\"\x7d]\x7d\x7d"

/-- A decoder that knows the Go decoding of a few request bodies. -/
def sampleDecodeBody (s : String) : Option Body :=
  if s = sampleBodyMaxTokens then
    some [("max_tokens", JValue.number 256), ("max_new_tokens", JValue.number 1),
      ("user", JValue.string "u1")]
  else if s = sampleBodyPenaltyText then
    some [("frequency_penalty", JValue.string "high")]
  else if s = sampleBodyPenaltyOne then
    some [("frequency_penalty", JValue.number 1)]
  else if s = sampleBodyTopPLow then some [("top_p", JValue.number (-1))]
  else if s = sampleBodyTopPHigh then some [("top_p", JValue.number 2)]
  else if s = sampleBodyTopPMid then some [("top_p", JValue.number 0.5)]
  else if s = sampleBodyModelBadTopP then
    some [("model", JValue.string "m"), ("top_p", JValue.string "0.9")]
  else if s = sampleBodyModel then
    some [("model", JValue.string "m"), ("max_tokens", JValue.number 256)]
  else none

/-- A runtime for sample inputs on which no rounding occurs. -/
def sampleRuntime : Runtime :=
  { decodeBody := sampleDecodeBody
    round64 := fun x => x
    intOfFloat := fun x => if x.den = 1 then some x.num else none
    unmarshalRawChatRequest := fun _ => none }

/-- The upstream event `{"data":{"id":"c1","choices":[{"index":0,"delta":"He"}]}}`. -/
def sampleEvent : SenseAPIResponse :=
  { Data :=
      { ID := "c1"
        Usage := { PromptTokens := 0, CompletionTokens := 0, KnowledgeTokens := 0, TotalTokens := 0 }
        Choices := [{ Index := 0, Role := "", Delta := "He", ReasoningContent := "", FinishReason := "" }]
        Plugins := [] }
    Status := { Code := 0, Message := "" } }

/-- A stream runtime that decodes one payload and marshals a client event to a
short text naming its id and model, `event(id,model)`. -/
def sampleStreamRuntime : StreamRuntime :=
  { unmarshalEvent := fun s =>
      if s = sampleEventText then
        some sampleEvent
      else none
    marshalEvent := fun r => some ("event(" ++ r.ID ++ "," ++ r.Model ++ ")")
    now := 1700000000 }

/-- A token runtime for sample inputs.  Its `hmacSHA256` is a stand-in that
returns the key followed by the first four bytes of the message. -/
def sampleTokenRuntime : TokenRuntime :=
  { hmacSHA256 := fun key message => key ++ message.take 4
    jsonEscape := fun c => ['\\', c] }

/-- The header of an inbound request with a split credential. -/
def sampleInboundHeader : HTTPHeader :=
  [("Authorization", ["Bearer ak1|sk1"]), ("Content-Type", ["application/json"])]

/-- An upstream event-stream response. -/
def sampleUpstreamResponse : UpstreamResponse :=
  { StatusCode := 200
    Header := [("Content-Type", ["text/event-stream"]), ("X-Request-Id", ["r1"])] }

/-! ## Facts about maps -/

theorem mapGet_mapDelete_self (m : Body) (k : String) : mapGet (mapDelete m k) k = none := by
  induction m with
  | nil => rfl
  | cons e m ih =>
    obtain ⟨k', v⟩ := e
    by_cases h : k' = k
    · simp [mapDelete, h] at ih ⊢
      exact ih
    · simp [mapDelete, h, mapGet] at ih ⊢
      exact ih

theorem mapGet_mapDelete_ne (m : Body) (k k' : String) (h : k' ≠ k) :
    mapGet (mapDelete m k) k' = mapGet m k' := by
  induction m with
  | nil => rfl
  | cons e m ih =>
    obtain ⟨k₀, v⟩ := e
    by_cases h₀ : k₀ = k
    · have h₁ : k₀ ≠ k' := fun e => h (e ▸ h₀)
      simp [mapDelete, h₀, mapGet] at ih ⊢
      rw [ih]
      simp [h₀ ▸ h₁]
    · simp [mapDelete, h₀, mapGet] at ih ⊢
      rw [ih]

theorem mapGet_mapSet_self (m : Body) (k : String) (v : JValue) :
    mapGet (mapSet m k v) k = some v := by
  simp [mapSet, mapGet]

theorem mapGet_mapSet_ne (m : Body) (k k' : String) (v : JValue) (h : k' ≠ k) :
    mapGet (mapSet m k v) k' = mapGet m k' := by
  have h' : k ≠ k' := fun e => h e.symm
  simp [mapSet, mapGet, h', mapGet_mapDelete_ne m k k' h]

/-! ## The three rewriting rules, one at a time -/

theorem renameMaxTokens_old (body : Body) : mapGet (renameMaxTokens body) "max_tokens" = none := by
  unfold renameMaxTokens
  cases h : mapGet body "max_tokens" with
  | none => simpa using h
  | some v => simpa using mapGet_mapDelete_self _ _

theorem renameMaxTokens_new (body : Body) (v : JValue) (h : mapGet body "max_tokens" = some v) :
    mapGet (renameMaxTokens body) "max_new_tokens" = some v := by
  unfold renameMaxTokens
  rw [h]
  show mapGet (mapDelete (mapSet body "max_new_tokens" v) "max_tokens") "max_new_tokens" = some v
  rw [mapGet_mapDelete_ne _ _ _ (by decide), mapGet_mapSet_self]

theorem renameMaxTokens_frame (body : Body) (k : String) (h₁ : k ≠ "max_tokens")
    (h₂ : k ≠ "max_new_tokens") : mapGet (renameMaxTokens body) k = mapGet body k := by
  unfold renameMaxTokens
  cases mapGet body "max_tokens" with
  | none => rfl
  | some v =>
    show mapGet (mapDelete (mapSet body "max_new_tokens" v) "max_tokens") k = mapGet body k
    rw [mapGet_mapDelete_ne _ _ _ h₁, mapGet_mapSet_ne _ _ _ _ h₂]

theorem convertFrequencyPenalty_number (rt : Runtime) (body : Body) (f : Float64)
    (h : mapGet body "frequency_penalty" = some (JValue.number f)) :
    convertFrequencyPenalty rt body =
      mapDelete (mapSet body "repetition_penalty" (JValue.number (rt.fdiv (rt.fadd f 2) 2)))
        "frequency_penalty" := by
  unfold convertFrequencyPenalty
  rw [h]
  rfl

theorem convertFrequencyPenalty_other (rt : Runtime) (body : Body)
    (h : ∀ f, mapGet body "frequency_penalty" ≠ some (JValue.number f)) :
    convertFrequencyPenalty rt body = body := by
  unfold convertFrequencyPenalty
  cases hv : mapGet body "frequency_penalty" with
  | none => rfl
  | some v =>
    cases v with
    | number f => exact absurd hv (h f)
    | _ => rfl

theorem convertFrequencyPenalty_frame (rt : Runtime) (body : Body) (k : String)
    (h₁ : k ≠ "frequency_penalty") (h₂ : k ≠ "repetition_penalty") :
    mapGet (convertFrequencyPenalty rt body) k = mapGet body k := by
  unfold convertFrequencyPenalty
  cases asFloat64 (mapGet body "frequency_penalty") with
  | none => rfl
  | some f =>
    show mapGet (mapDelete (mapSet body "repetition_penalty" _) "frequency_penalty") k = _
    rw [mapGet_mapDelete_ne _ _ _ h₁, mapGet_mapSet_ne _ _ _ _ h₂]

theorem clampTopP_frame (body : Body) (k : String) (h : k ≠ "top_p") :
    mapGet (clampTopP body) k = mapGet body k := by
  unfold clampTopP
  cases asFloat64 (mapGet body "top_p") with
  | none => rfl
  | some p =>
    show mapGet (if p ≤ 0 then _ else if p ≥ 1 then _ else body) k = _
    split_ifs
    · exact mapGet_mapSet_ne _ _ _ _ h
    · exact mapGet_mapSet_ne _ _ _ _ h
    · rfl

theorem clampTopP_number (body : Body) (p : Float64)
    (h : mapGet body "top_p" = some (JValue.number p)) :
    mapGet (clampTopP body) "top_p" =
      some (JValue.number (if p ≤ 0 then 0.000001 else if p ≥ 1 then 0.999999 else p)) := by
  unfold clampTopP
  rw [h]
  show mapGet (if p ≤ 0 then _ else if p ≥ 1 then _ else body) "top_p" = _
  split_ifs
  · exact mapGet_mapSet_self _ _ _
  · exact mapGet_mapSet_self _ _ _
  · exact h

/-- On a JSON content type with a decodable body, `modifyRequestBody` returns
the marshalled map obtained by the three rules. -/
theorem modifyRequestBody_json (rt : Runtime) (r : Request) (body : Body)
    (hct : stringsContains r.contentType "application/json" = true)
    (hdec : rt.decodeBody r.body = some body) :
    modifyRequestBody rt r =
      Except.ok (BodyBytes.marshalled
        (clampTopP (convertFrequencyPenalty rt (renameMaxTokens body)))) := by
  have hne : r.contentType ≠ "" := by
    intro h
    rw [h] at hct
    exact absurd hct (by decide)
  unfold modifyRequestBody
  rw [if_pos ⟨hne, hct⟩, hdec]

/-! ## Splitting into lines -/

theorem splitNewlineChars_ne_nil (s : List Char) : splitNewlineChars s ≠ [] := by
  cases s with
  | nil => simp [splitNewlineChars]
  | cons c cs =>
    unfold splitNewlineChars
    split_ifs
    · simp
    · cases splitNewlineChars cs <;> simp

theorem splitNewlineChars_append (a b : List Char) :
    splitNewlineChars (a ++ '\n' :: b) = splitNewlineChars a ++ splitNewlineChars b := by
  induction a with
  | nil => simp [splitNewlineChars]
  | cons c a ih =>
    by_cases hc : c = '\n'
    · simp [splitNewlineChars, hc, ih]
    · have hne := splitNewlineChars_ne_nil a
      cases hsa : splitNewlineChars a with
      | nil => exact absurd hsa hne
      | cons l ls =>
        have e₁ : splitNewlineChars (c :: (a ++ '\n' :: b)) =
            (c :: l) :: (ls ++ splitNewlineChars b) := by
          rw [splitNewlineChars, if_neg hc, ih, hsa]
          rfl
        have e₂ : splitNewlineChars (c :: a) = (c :: l) :: ls := by
          rw [splitNewlineChars, if_neg hc, hsa]
        rw [List.cons_append, e₁, e₂]
        rfl

theorem splitNewlineChars_line (l : List Char) (h : '\n' ∉ l) : splitNewlineChars l = [l] := by
  induction l with
  | nil => rfl
  | cons c l ih =>
    have hc : c ≠ '\n' := fun e => h (e ▸ List.mem_cons_self _ _)
    have hl : '\n' ∉ l := fun m => h (List.mem_cons_of_mem _ m)
    simp [splitNewlineChars, hc, ih hl]

theorem stringsSplitNewline_append (a b : String) :
    stringsSplitNewline (a ++ "\n" ++ b) = stringsSplitNewline a ++ stringsSplitNewline b := by
  unfold stringsSplitNewline
  have h : (a ++ "\n" ++ b).data = a.data ++ '\n' :: b.data := by
    simp [String.data_append]
  rw [h, splitNewlineChars_append, List.map_append]

theorem stringsSplitNewline_line (line : String) (h : '\n' ∉ line.data) :
    stringsSplitNewline line = [line] := by
  unfold stringsSplitNewline
  rw [splitNewlineChars_line _ h]
  rfl

theorem stringsSplitNewline_empty : stringsSplitNewline "" = [""] := rfl

/-! ## The re-framer line by line -/

/-- The loop body only appends to `result`. -/
theorem transformLine_append (rt : StreamRuntime) (m result line : String) :
    transformLine rt m result line = result ++ transformLine rt m "" line := by
  unfold transformLine
  by_cases hp : stringsHasPrefix line "data:" = true
  · rw [if_pos hp, if_pos hp]
    by_cases hd : stringsTrimSpace (sliceFrom line 5) = "[DONE]"
    · simp [hd]
    · simp only [hd, if_false]
      cases rt.unmarshalEvent (stringsTrimSpace (sliceFrom line 5)) with
      | none => simp
      | some data =>
        cases hm : rt.marshalEvent (transformEvent rt m data) with
        | none => simp [hm]
        | some js => simp [hm, String.append_assoc]
  · rw [if_neg hp, if_neg hp]
    by_cases hl : line = ""
    · simp [hl]
    · simp [hl, String.append_assoc]

theorem foldl_transformLine (rt : StreamRuntime) (m : String) (ls : List String) (acc : String) :
    ls.foldl (transformLine rt m) acc = acc ++ ls.foldl (transformLine rt m) "" := by
  induction ls generalizing acc with
  | nil => simp
  | cons l ls ih =>
    simp only [List.foldl_cons]
    rw [ih (transformLine rt m acc l), ih (transformLine rt m "" l), transformLine_append,
      String.append_assoc]

theorem foldl_transformLine_append (rt : StreamRuntime) (m : String) (ls₁ ls₂ : List String) :
    (ls₁ ++ ls₂).foldl (transformLine rt m) "" =
      ls₁.foldl (transformLine rt m) "" ++ ls₂.foldl (transformLine rt m) "" := by
  rw [List.foldl_append, foldl_transformLine]

theorem transformLine_empty (rt : StreamRuntime) (m : String) : transformLine rt m "" "" = "" := by
  rfl

theorem transformSSEChunk_empty (rt : StreamRuntime) (m : String) :
    transformSSEChunk rt "" m = "" := by
  unfold transformSSEChunk
  rw [stringsSplitNewline_empty]
  exact transformLine_empty rt m

/-- The text before a line break is re-framed independently of the text after it. -/
theorem transformSSEChunk_newline (rt : StreamRuntime) (m a b : String) :
    transformSSEChunk rt (a ++ "\n" ++ b) m =
      transformSSEChunk rt a m ++ transformSSEChunk rt b m := by
  unfold transformSSEChunk
  rw [stringsSplitNewline_append, foldl_transformLine_append]

theorem transformSSEChunk_trailing (rt : StreamRuntime) (m a : String) :
    transformSSEChunk rt (a ++ "\n") m = transformSSEChunk rt a m := by
  have h := transformSSEChunk_newline rt m a ""
  rw [transformSSEChunk_empty, String.append_empty, String.append_empty] at h
  exact h

/-- Splitting a chunk after a line break splits the output. -/
theorem transformSSEChunk_split (rt : StreamRuntime) (m a b : String)
    (ha : a = "" ∨ ∃ a', a = a' ++ "\n") :
    transformSSEChunk rt (a ++ b) m = transformSSEChunk rt a m ++ transformSSEChunk rt b m := by
  rcases ha with rfl | ⟨a', rfl⟩
  · rw [transformSSEChunk_empty]
    simp
  · rw [transformSSEChunk_newline, transformSSEChunk_trailing]

theorem transformSSEChunk_single (rt : StreamRuntime) (m line : String)
    (hl : '\n' ∉ line.data) :
    transformSSEChunk rt line m = transformLine rt m "" line := by
  unfold transformSSEChunk
  rw [stringsSplitNewline_line _ hl]
  rfl

/-- A whole line of a chunk contributes its own output at its own position. -/
theorem transformSSEChunk_at_line (rt : StreamRuntime) (m a line b : String)
    (ha : a = "" ∨ ∃ a', a = a' ++ "\n") (hl : '\n' ∉ line.data) :
    transformSSEChunk rt (a ++ (line ++ "\n" ++ b)) m =
      transformSSEChunk rt a m ++ transformLine rt m "" line ++ transformSSEChunk rt b m := by
  rw [transformSSEChunk_split rt m a _ ha, transformSSEChunk_newline,
    transformSSEChunk_single rt m line hl, String.append_assoc]

/-! ## The streaming loop -/

theorem joinWrites_append (ws : List String) (w : String) :
    joinWrites (ws ++ [w]) = joinWrites ws ++ w := by
  induction ws with
  | nil => simp [joinWrites]
  | cons v ws ih =>
    have h₁ : joinWrites (v :: ws ++ [w]) = v ++ joinWrites (ws ++ [w]) := rfl
    have h₂ : joinWrites (v :: ws) = v ++ joinWrites ws := rfl
    rw [h₁, h₂, ih, String.append_assoc]

/-- What the loop has written, together with what the buffered text would
give, is the re-framing of the whole text read so far. -/
theorem foldl_streamStep_text (rt : StreamRuntime) (m : String) (lines : List String)
    (st : StreamState) :
    joinWrites (lines.foldl (streamStep rt m) st).written ++
        transformSSEChunk rt (lines.foldl (streamStep rt m) st).buffer m =
      joinWrites st.written ++ transformSSEChunk rt (st.buffer ++ linesText lines) m := by
  induction lines generalizing st with
  | nil => simp [linesText]
  | cons l ls ih =>
    rw [List.foldl_cons, ih]
    have ht : linesText (l :: ls) = l ++ "\n" ++ linesText ls := rfl
    by_cases hl : l = ""
    · subst hl
      have hs : streamStep rt m st "" =
          { buffer := "", written := st.written ++ [transformSSEChunk rt (st.buffer ++ ("" ++ "\n")) m] } := by
        simp [streamStep]
      rw [hs, ht]
      simp only [joinWrites_append, String.empty_append]
      rw [← String.append_assoc st.buffer "\n" (linesText ls),
        transformSSEChunk_split rt m (st.buffer ++ "\n") (linesText ls) (Or.inr ⟨_, rfl⟩),
        String.append_assoc]
    · have hs : streamStep rt m st l = { buffer := st.buffer ++ (l ++ "\n"), written := st.written } := by
        simp [streamStep, hl]
      rw [hs, ht]
      simp only [String.append_assoc]

/-- The writes made from a given state are those made from the same buffer with
nothing written, after the earlier writes. -/
theorem foldl_streamStep_written (rt : StreamRuntime) (m : String) (lines : List String)
    (buf : String) (ws : List String) :
    lines.foldl (streamStep rt m) { buffer := buf, written := ws } =
      { buffer := (lines.foldl (streamStep rt m) { buffer := buf, written := [] }).buffer
        written := ws ++ (lines.foldl (streamStep rt m) { buffer := buf, written := [] }).written } := by
  induction lines generalizing buf ws with
  | nil => simp
  | cons l ls ih =>
    simp only [List.foldl_cons]
    by_cases hl : l = ""
    · subst hl
      simp only [streamStep, if_true]
      rw [ih "" (ws ++ _), ih "" ([] ++ _)]
      simp
    · simp only [streamStep, hl, if_false]
      exact ih _ ws

theorem streamLoop_blank (rt : StreamRuntime) (m : String) (lines : List String) :
    (streamLoop rt m (lines ++ [""])).buffer = "" := by
  unfold streamLoop
  rw [List.foldl_append]
  simp [streamStep]

theorem foldl_transformLine_join (rt : StreamRuntime) (m : String) (ls : List String) :
    ls.foldl (transformLine rt m) "" = joinWrites (ls.map (transformLine rt m "")) := by
  induction ls with
  | nil => rfl
  | cons l ls ih =>
    rw [List.foldl_cons, foldl_transformLine, ih]
    rfl

theorem transformLine_done (rt : StreamRuntime) (m line : String)
    (hp : stringsHasPrefix line "data:" = true)
    (hd : stringsTrimSpace (sliceFrom line 5) = "[DONE]") :
    transformLine rt m "" line = "data: [DONE]\n\n" := by
  unfold transformLine
  rw [if_pos hp]
  simp [hd]

theorem transformLine_event (rt : StreamRuntime) (m line js : String) (data : SenseAPIResponse)
    (hp : stringsHasPrefix line "data:" = true)
    (hd : stringsTrimSpace (sliceFrom line 5) ≠ "[DONE]")
    (hu : rt.unmarshalEvent (stringsTrimSpace (sliceFrom line 5)) = some data)
    (hm : rt.marshalEvent (transformEvent rt m data) = some js) :
    transformLine rt m "" line = "data: " ++ js ++ "\n\n" := by
  unfold transformLine
  rw [if_pos hp]
  simp [hd, hu, hm]

/-- The writes of the loop for a one-line event that starts on an empty buffer. -/
theorem streamLoop_event (rt : StreamRuntime) (m : String) (pre post : List String)
    (line : String) (hpre : pre = [] ∨ ∃ p, pre = p ++ [""]) (hl : line ≠ "") :
    (streamLoop rt m (pre ++ line :: "" :: post)).written =
      (streamLoop rt m pre).written ++
        (transformSSEChunk rt (line ++ "\n" ++ "\n") m :: (streamLoop rt m post).written) := by
  have hb : (streamLoop rt m pre).buffer = "" := by
    rcases hpre with rfl | ⟨p, rfl⟩
    · rfl
    · exact streamLoop_blank rt m p
  have hst : streamLoop rt m pre =
      { buffer := "", written := (streamLoop rt m pre).written } := by
    rw [← hb]
  unfold streamLoop at hst ⊢
  rw [List.foldl_append, hst, foldl_streamStep_written]
  simp only [List.foldl_cons, streamStep, hl, if_false, if_true]
  rw [foldl_streamStep_written rt m post "" (_ ++ _)]
  simp [String.append_assoc]

theorem joinWrites_concat (ws₁ ws₂ : List String) :
    joinWrites (ws₁ ++ ws₂) = joinWrites ws₁ ++ joinWrites ws₂ := by
  induction ws₁ with
  | nil => simp [joinWrites]
  | cons w ws ih =>
    have h₁ : joinWrites (w :: ws ++ ws₂) = w ++ joinWrites (ws ++ ws₂) := rfl
    have h₂ : joinWrites (w :: ws) = w ++ joinWrites ws := rfl
    rw [h₁, h₂, ih, String.append_assoc]

/-- The output of a chunk around one of its lines. -/
theorem transformSSEChunk_around (rt : StreamRuntime) (m chunk line : String)
    (pre post : List String) (h : stringsSplitNewline chunk = pre ++ line :: post) :
    transformSSEChunk rt chunk m =
      joinWrites (pre.map (transformLine rt m "")) ++ transformLine rt m "" line ++
        joinWrites (post.map (transformLine rt m "")) := by
  unfold transformSSEChunk
  rw [h, foldl_transformLine_join, List.map_append, List.map_cons, joinWrites_concat]
  have h₁ : joinWrites (transformLine rt m "" line :: post.map (transformLine rt m "")) =
      transformLine rt m "" line ++ joinWrites (post.map (transformLine rt m "")) := rfl
  rw [h₁, String.append_assoc]

/-- Lines that are not blank leave the writes as they are. -/
theorem foldl_streamStep_nonblank (rt : StreamRuntime) (m : String) (tail : List String)
    (st : StreamState) (ht : ∀ l ∈ tail, l ≠ "") :
    (tail.foldl (streamStep rt m) st).written = st.written := by
  induction tail generalizing st with
  | nil => rfl
  | cons l ls ih =>
    have hl : l ≠ "" := ht l (List.mem_cons_self _ _)
    rw [List.foldl_cons, ih _ (fun l' h' => ht l' (List.mem_cons_of_mem _ h'))]
    simp [streamStep, hl]

theorem linesText_append (ls₁ ls₂ : List String) :
    linesText (ls₁ ++ ls₂) = linesText ls₁ ++ linesText ls₂ := by
  induction ls₁ with
  | nil => simp [linesText]
  | cons l ls ih =>
    have h₁ : linesText (l :: ls ++ ls₂) = l ++ "\n" ++ linesText (ls ++ ls₂) := rfl
    have h₂ : linesText (l :: ls) = l ++ "\n" ++ linesText ls := rfl
    rw [h₁, h₂, ih]
    simp only [String.append_assoc]

/-- The text of whole lines is empty or ends with a line break. -/
theorem linesText_ends (ls : List String) :
    linesText ls = "" ∨ ∃ a', linesText ls = a' ++ "\n" := by
  induction ls using List.reverseRecOn with
  | nil => exact Or.inl rfl
  | append_singleton ls l _ =>
    right
    refine ⟨linesText ls ++ l, ?_⟩
    rw [linesText_append]
    have h : linesText [l] = l ++ "\n" := by simp [linesText]
    rw [h, String.append_assoc]

/-- For a stream that ends with a blank line, the writes, joined, are the
re-framing of the whole text. -/
theorem streamLoop_terminated (rt : StreamRuntime) (m : String) (lines : List String) :
    joinWrites (streamLoop rt m (lines ++ [""])).written =
      transformSSEChunk rt (linesText (lines ++ [""])) m := by
  have h := foldl_streamStep_text rt m (lines ++ [""]) { buffer := "", written := [] }
  have hb := streamLoop_blank rt m lines
  unfold streamLoop at hb ⊢
  rw [hb, transformSSEChunk_empty, String.append_empty] at h
  simpa [joinWrites] using h

/-! ## The captured model name -/

theorem keyLess_asymm (a b : List Char) (h : keyLess a b = true) : keyLess b a = false := by
  induction a generalizing b with
  | nil =>
    cases b with
    | nil => simp [keyLess] at h
    | cons y bs => rfl
  | cons x as ih =>
    cases b with
    | nil => simp [keyLess] at h
    | cons y bs =>
      simp only [keyLess, Bool.or_eq_true, Bool.and_eq_true, decide_eq_true_eq] at h
      simp only [keyLess, Bool.or_eq_false_iff, Bool.and_eq_false_imp, decide_eq_false_iff_not,
        decide_eq_true_eq]
      rcases h with h | ⟨h₁, h₂⟩
      · exact ⟨by omega, fun e => by omega⟩
      · exact ⟨by omega, fun _ => ih bs h₂⟩

theorem keyLess_cotrans (c a b : List Char) (h : keyLess c a = true) :
    keyLess c b = true ∨ keyLess b a = true := by
  induction c generalizing a b with
  | nil =>
    cases a with
    | nil => simp [keyLess] at h
    | cons x as =>
      cases b with
      | nil => right; rfl
      | cons y bs => left; rfl
  | cons z cs ih =>
    cases a with
    | nil => simp [keyLess] at h
    | cons x as =>
      cases b with
      | nil => right; rfl
      | cons y bs =>
        simp only [keyLess, Bool.or_eq_true, Bool.and_eq_true, decide_eq_true_eq] at h ⊢
        rcases h with h | ⟨h₁, h₂⟩
        · by_cases hzy : z.toNat < y.toNat
          · exact Or.inl (Or.inl hzy)
          · exact Or.inr (Or.inl (by omega))
        · by_cases hzy : z.toNat < y.toNat
          · exact Or.inl (Or.inl hzy)
          · by_cases hyz : y.toNat < z.toNat
            · exact Or.inr (Or.inl (by omega))
            · have e : z.toNat = y.toNat := by omega
              rcases ih as bs h₂ with h₃ | h₃
              · exact Or.inl (Or.inr ⟨e, h₃⟩)
              · exact Or.inr (Or.inr ⟨by omega, h₃⟩)

theorem memberLE_total (e₁ e₂ : String × JValue) : memberLE e₁ e₂ ∨ memberLE e₂ e₁ := by
  unfold memberLE
  cases h : keyLess e₂.1.data e₁.1.data with
  | false => exact Or.inl rfl
  | true => exact Or.inr (keyLess_asymm _ _ h)

theorem memberLE_trans (e₁ e₂ e₃ : String × JValue) (h₁₂ : memberLE e₁ e₂)
    (h₂₃ : memberLE e₂ e₃) : memberLE e₁ e₃ := by
  unfold memberLE at *
  cases h : keyLess e₃.1.data e₁.1.data with
  | false => rfl
  | true =>
    rcases keyLess_cotrans _ _ e₂.1.data h with h' | h'
    · rw [h'] at h₂₃
      exact absurd h₂₃ (by decide)
    · rw [h'] at h₁₂
      exact absurd h₁₂ (by decide)

/-- The members are written in the order of their keys. -/
theorem marshalledMembers_sorted (body : Body) : (marshalledMembers body).Sorted memberLE := by
  haveI : IsTotal (String × JValue) memberLE := ⟨memberLE_total⟩
  haveI : IsTrans (String × JValue) memberLE := ⟨memberLE_trans⟩
  exact List.sorted_insertionSort memberLE _

theorem mem_mapDelete (m : Body) (k : String) (e : String × JValue) :
    e ∈ mapDelete m k ↔ e ∈ m ∧ e.1 ≠ k := by
  simp [mapDelete]

theorem mem_distinct_of_mapGet (body : Body) (k : String) (v : JValue)
    (h : mapGet body k = some v) :
    (k, v) ∈ body.foldr (fun e acc => mapSet acc e.1 e.2) [] := by
  induction body with
  | nil => simp [mapGet] at h
  | cons e body ih =>
    obtain ⟨k', v'⟩ := e
    simp only [List.foldr_cons, mapSet, List.mem_cons]
    by_cases hk : k' = k
    · left
      simp [mapGet, hk] at h
      rw [hk, h]
    · right
      simp only [mapGet, hk, if_false] at h
      exact (mem_mapDelete _ _ _).mpr ⟨ih h, fun e => hk e.symm⟩

theorem keys_nodup_distinct (body : Body) :
    ((body.foldr (fun e acc => mapSet acc e.1 e.2) []).map Prod.fst).Nodup := by
  induction body with
  | nil => simp
  | cons e body ih =>
    simp only [List.foldr_cons, mapSet, List.map_cons, List.nodup_cons]
    constructor
    · intro hmem
      obtain ⟨e', he', hk⟩ := List.mem_map.mp hmem
      exact ((mem_mapDelete _ _ _).mp he').2 hk
    · exact ih.sublist (List.Sublist.map _ (List.filter_sublist _))

theorem foldChar_letter (c u l : Char) (h : foldChar c = u) (hK : u ≠ 'K') (hS : u ≠ 'S')
    (hl : ∀ n, 97 ≤ n → n ≤ 122 → Char.ofNat (n - 32) = u → Char.ofNat n = l) :
    c = u ∨ c = l := by
  unfold foldChar at h
  split_ifs at h with h₁ h₂ h₃ h₄
  · right
    rw [← Char.ofNat_toNat c]
    exact hl c.toNat h₂.1 h₂.2 h
  · exact Or.inl h
  · exact absurd h.symm hK
  · exact absurd h.symm hS
  · exact Or.inl h

theorem foldName_model (k : String) (h : foldName k = foldName "model") :
    k = "model" ∨ keyLess k.data "model".data = true := by
  have hd : k.data.map foldChar = ['M', 'O', 'D', 'E', 'L'] := by
    have h' := congrArg String.data h
    exact h'
  obtain ⟨cs⟩ := k
  simp only at hd
  rcases cs with _ | ⟨c₁, _ | ⟨c₂, _ | ⟨c₃, _ | ⟨c₄, _ | ⟨c₅, _ | ⟨c₆, cs⟩⟩⟩⟩⟩⟩ <;>
    simp only [List.map_cons, List.map_nil, List.cons.injEq, and_true, reduceCtorEq,
      and_false, false_and] at hd
  obtain ⟨h₁, h₂, h₃, h₄, h₅⟩ := hd
  have e₁ := foldChar_letter c₁ 'M' 'm' h₁ (by decide) (by decide)
    (by intro n a b; interval_cases n <;> decide)
  have e₂ := foldChar_letter c₂ 'O' 'o' h₂ (by decide) (by decide)
    (by intro n a b; interval_cases n <;> decide)
  have e₃ := foldChar_letter c₃ 'D' 'd' h₃ (by decide) (by decide)
    (by intro n a b; interval_cases n <;> decide)
  have e₄ := foldChar_letter c₄ 'E' 'e' h₄ (by decide) (by decide)
    (by intro n a b; interval_cases n <;> decide)
  have e₅ := foldChar_letter c₅ 'L' 'l' h₅ (by decide) (by decide)
    (by intro n a b; interval_cases n <;> decide)
  rcases e₁ with rfl | rfl <;> rcases e₂ with rfl | rfl <;> rcases e₃ with rfl | rfl <;>
    rcases e₄ with rfl | rfl <;> rcases e₅ with rfl | rfl <;> decide

theorem findField_model (k : String) (h : findField k = some ChatField.model) :
    foldName k = foldName "model" := by
  unfold findField at h
  split at h
  · rename_i f hf
    have hp := List.find?_some hf
    have e : f = ChatField.model := Option.some.inj h
    subst e
    have hk : ChatField.model.jsonName = k := of_decide_eq_true hp
    rw [← hk]
    rfl
  · have hp := List.find?_some h
    exact (of_decide_eq_true hp).symm

theorem saveError_value (st : UnmarshalState) (e : String) : (st.saveError e).value = st.value := by
  unfold UnmarshalState.saveError
  cases st.savedError <;> rfl

theorem assignField_other (rt : Runtime) (st : UnmarshalState) (f : ChatField) (v : JValue)
    (hf : f ≠ ChatField.model) : (assignField rt st f v).value.Model = st.value.Model := by
  cases v <;> cases f <;> simp only [assignField, saveError_value] <;>
    first
    | exact absurd rfl hf
    | (split <;> simp only [saveError_value])

theorem unmarshalMember_other (rt : Runtime) (st : UnmarshalState) (e : String × JValue)
    (h : findField e.1 ≠ some ChatField.model) :
    (unmarshalMember rt st e).value.Model = st.value.Model := by
  unfold unmarshalMember
  cases hf : findField e.1 with
  | none => rfl
  | some f =>
    have hne : f ≠ ChatField.model := fun e' => h (by rw [hf, e'])
    exact assignField_other rt st f e.2 hne

theorem unmarshalMember_model (rt : Runtime) (st : UnmarshalState) (m : String) :
    (unmarshalMember rt st ("model", JValue.string m)).value.Model = m := by
  rfl

theorem foldl_unmarshalMember_other (rt : Runtime) (es : List (String × JValue))
    (st : UnmarshalState) (h : ∀ e ∈ es, findField e.1 ≠ some ChatField.model) :
    (es.foldl (unmarshalMember rt) st).value.Model = st.value.Model := by
  induction es generalizing st with
  | nil => rfl
  | cons e es ih =>
    rw [List.foldl_cons, ih _ (fun e' he' => h e' (List.mem_cons_of_mem _ he')),
      unmarshalMember_other rt st e (h e (List.mem_cons_self _ _))]

/-- Whatever else the rewritten body holds, `json.Unmarshal` leaves in
`chatReq.Model` the string bound to the key `model`. -/
theorem unmarshalState_model (rt : Runtime) (body : Body) (m : String)
    (h : mapGet body "model" = some (JValue.string m)) :
    (unmarshalState rt body).value.Model = m := by
  have hmem : ("model", JValue.string m) ∈ marshalledMembers body :=
    (List.mem_insertionSort memberLE).mpr (mem_distinct_of_mapGet body _ _ h)
  have hsorted := marshalledMembers_sorted body
  have hnodup : ((marshalledMembers body).map Prod.fst).Nodup :=
    ((List.perm_insertionSort memberLE _).map Prod.fst).nodup_iff.mpr (keys_nodup_distinct body)
  unfold unmarshalState
  obtain ⟨pre, post, hsplit⟩ := List.append_of_mem hmem
  rw [hsplit] at hsorted hnodup ⊢
  have hpost : ∀ e ∈ post, findField e.1 ≠ some ChatField.model := by
    intro e he hf
    have hle : memberLE ("model", JValue.string m) e := by
      have h₁ := (List.pairwise_append.mp hsorted).2.1
      exact (List.pairwise_cons.mp h₁).1 e he
    have hne : e.1 ≠ "model" := by
      intro heq
      rw [List.map_append, List.map_cons] at hnodup
      have h₁ := (List.nodup_append.mp hnodup).2.1
      have h₂ := (List.nodup_cons.mp h₁).1
      have h₃ : e.1 ∈ post.map Prod.fst := List.mem_map_of_mem Prod.fst he
      rw [heq] at h₃
      exact h₂ h₃
    rcases foldName_model e.1 (findField_model e.1 hf) with h₁ | h₁
    · exact hne h₁
    · unfold memberLE at hle
      rw [h₁] at hle
      exact absurd hle (by decide)
  rw [List.foldl_append, List.foldl_cons, foldl_unmarshalMember_other rt post _ hpost,
    unmarshalMember_model]

theorem saveError_savedError (st : UnmarshalState) (e : String) :
    (st.saveError e).savedError ≠ none := by
  unfold UnmarshalState.saveError
  cases h : st.savedError with
  | none => simp
  | some e' => simp [h]

theorem assignField_savedError (rt : Runtime) (st : UnmarshalState) (f : ChatField) (v : JValue) :
    (assignField rt st f v).savedError = none ↔
      st.savedError = none ∧ fitsField rt f v = true := by
  cases v <;> cases f <;>
    simp only [assignField, fitsField, saveError_savedError, and_true, and_false,
      Bool.false_eq_true] <;>
    first
    | (cases rt.intOfFloat _ <;> simp [saveError_savedError])

theorem unmarshalMember_savedError (rt : Runtime) (st : UnmarshalState) (e : String × JValue) :
    (unmarshalMember rt st e).savedError = none ↔
      st.savedError = none ∧ ∀ f, findField e.1 = some f → fitsField rt f e.2 = true := by
  unfold unmarshalMember
  cases findField e.1 with
  | none => simp
  | some f => simp [assignField_savedError]

theorem foldl_unmarshalMember_savedError (rt : Runtime) (es : List (String × JValue))
    (st : UnmarshalState) :
    (es.foldl (unmarshalMember rt) st).savedError = none ↔
      st.savedError = none ∧
        ∀ e ∈ es, ∀ f, findField e.1 = some f → fitsField rt f e.2 = true := by
  induction es generalizing st with
  | nil => simp
  | cons e es ih =>
    rw [List.foldl_cons, ih, unmarshalMember_savedError]
    simp only [List.mem_cons, forall_eq_or_imp]
    tauto

/-- `json.Unmarshal` of the rewritten body returns no error exactly when every
member whose key selects a field of `ChatRequest` has a value that fits it. -/
theorem unmarshalState_savedError (rt : Runtime) (body : Body) :
    (unmarshalState rt body).savedError = none ↔
      ∀ e ∈ marshalledMembers body, ∀ f, findField e.1 = some f → fitsField rt f e.2 = true := by
  unfold unmarshalState
  rw [foldl_unmarshalMember_savedError]
  simp

/-! ## Claims about the sentinel -/

/-- C1, as stated, fails.  After a `[DONE]` line the re-framer goes on: in the
chunk `data: [DONE]`, `retry: 5` the second line is still emitted, and in the
streaming loop the event read after the `[DONE]` event is still translated
and written. -/
theorem done_does_not_stop :
    transformSSEChunk sampleStreamRuntime "data: [DONE]\nretry: 5\n\n" "m" =
        "data: [DONE]\n\nretry: 5\n\n" ∧
      (streamLoop sampleStreamRuntime "m"
          ["data: [DONE]", "",
            ("data: " ++ sampleEventText),
            ""]).written =
        ["data: [DONE]\n\n", "data: event(c1,m)\n\n"] := by
  decide

/-- C1, amended.  In every chunk text, a `data:` line whose trimmed payload is
`[DONE]` contributes exactly the bytes `data: [DONE]\n\n` at its position, and
the lines that follow it in the chunk are re-framed as usual.  In the streaming
loop of `handleRequest`, a `[DONE]` line is emitted, as those bytes and at its
position among the bytes written, once a blank line is read after it, and the
lines read after it up to the last blank line are re-framed and written as usual;
when the upstream ends with no blank line after the `[DONE]` line, nothing is
written for it. -/
theorem done_line_reframed (rt : StreamRuntime) (m line : String)
    (hl : '\n' ∉ line.data)
    (hp : stringsHasPrefix line "data:" = true)
    (hd : stringsTrimSpace (sliceFrom line 5) = "[DONE]") :
    (∀ (chunk : String) (pre post : List String),
        stringsSplitNewline chunk = pre ++ line :: post →
        transformSSEChunk rt chunk m =
          joinWrites (pre.map (transformLine rt m "")) ++ "data: [DONE]\n\n" ++
            joinWrites (post.map (transformLine rt m ""))) ∧
      (∀ a b : String, (a = "" ∨ ∃ a', a = a' ++ "\n") →
        transformSSEChunk rt (a ++ (line ++ "\n" ++ b)) m =
          transformSSEChunk rt a m ++ "data: [DONE]\n\n" ++ transformSSEChunk rt b m) ∧
      (∀ pre post tail : List String, (∀ l ∈ tail, l ≠ "") →
        joinWrites (streamLoop rt m (pre ++ line :: (post ++ "" :: tail))).written =
          transformSSEChunk rt (linesText pre) m ++ "data: [DONE]\n\n" ++
            transformSSEChunk rt (linesText (post ++ [""])) m) ∧
      (∀ pre post : List String, (pre = [] ∨ ∃ p, pre = p ++ [""]) →
        (streamLoop rt m (pre ++ line :: "" :: post)).written =
          (streamLoop rt m pre).written ++
            ("data: [DONE]\n\n" :: (streamLoop rt m post).written)) ∧
      ∀ pre tail : List String, (∀ l ∈ tail, l ≠ "") →
        (streamLoop rt m (pre ++ line :: tail)).written = (streamLoop rt m pre).written := by
  have hline : line ≠ "" := by
    intro h
    rw [h] at hp
    exact absurd hp (by decide)
  have hdone := transformLine_done rt m line hp hd
  refine ⟨?_, ?_, ?_, ?_, ?_⟩
  · intro chunk pre post h
    rw [transformSSEChunk_around rt m chunk line pre post h, hdone]
  · intro a b ha
    rw [transformSSEChunk_at_line rt m a line b ha hl, hdone]
  · intro pre post tail ht
    have hassoc : pre ++ line :: (post ++ "" :: tail) = ((pre ++ line :: post) ++ [""]) ++ tail := by
      simp
    have hw : (streamLoop rt m (((pre ++ line :: post) ++ [""]) ++ tail)).written =
        (streamLoop rt m ((pre ++ line :: post) ++ [""])).written := by
      unfold streamLoop
      rw [List.foldl_append]
      exact foldl_streamStep_nonblank rt m tail _ ht
    have htext : linesText ((pre ++ line :: post) ++ [""]) =
        linesText pre ++ (line ++ "\n" ++ linesText (post ++ [""])) := by
      have h₁ : (pre ++ line :: post) ++ [""] = pre ++ line :: (post ++ [""]) := by simp
      rw [h₁, linesText_append]
      rfl
    rw [hassoc, hw, streamLoop_terminated, htext,
      transformSSEChunk_at_line rt m _ line _ (linesText_ends pre) hl, hdone]
  · intro pre post hpre
    rw [streamLoop_event rt m pre post line hpre hline, transformSSEChunk_trailing,
      transformSSEChunk_trailing, transformSSEChunk_single rt m line hl, hdone]
  · intro pre tail ht
    unfold streamLoop
    rw [List.foldl_append]
    apply foldl_streamStep_nonblank
    intro l hmem
    rcases List.mem_cons.mp hmem with h | h
    · rw [h]
      exact hline
    · exact ht l h

/-- C1, amended, at the line `data: [DONE]`: in the chunk `data: [DONE]`,
`retry: 5`; in a stream where it follows a comment line in the same event and a
line without a blank line comes last; and in a stream that ends right after
it. -/
theorem done_line_reframed_witness :
    '\n' ∉ ("data: [DONE]" : String).data ∧
      stringsHasPrefix "data: [DONE]" "data:" = true ∧
      stringsTrimSpace (sliceFrom "data: [DONE]" 5) = "[DONE]" ∧
      transformSSEChunk sampleStreamRuntime ("" ++ ("data: [DONE]" ++ "\n" ++ "retry: 5\n")) "m" =
        transformSSEChunk sampleStreamRuntime "" "m" ++ "data: [DONE]\n\n" ++
          transformSSEChunk sampleStreamRuntime "retry: 5\n" "m" ∧
      joinWrites
          (streamLoop sampleStreamRuntime "m"
            ([": ping"] ++ "data: [DONE]" :: ([] ++ "" :: ["retry: 5"]))).written =
        transformSSEChunk sampleStreamRuntime (linesText [": ping"]) "m" ++ "data: [DONE]\n\n" ++
          transformSSEChunk sampleStreamRuntime (linesText ([] ++ [""])) "m" ∧
      joinWrites
          (streamLoop sampleStreamRuntime "m" [": ping", "data: [DONE]", "", "retry: 5"]).written =
        ": ping\n\ndata: [DONE]\n\n" ∧
      (streamLoop sampleStreamRuntime "m" ([": ping", ""] ++ "data: [DONE]" :: [])).written =
        (streamLoop sampleStreamRuntime "m" [": ping", ""]).written :=
  ⟨by decide, by decide, by decide,
    (done_line_reframed sampleStreamRuntime "m" "data: [DONE]" (by decide) (by decide)
      (by decide)).2.1 "" "retry: 5\n" (Or.inl rfl),
    (done_line_reframed sampleStreamRuntime "m" "data: [DONE]" (by decide) (by decide)
      (by decide)).2.2.1 [": ping"] [] ["retry: 5"] (by decide),
    by decide,
    (done_line_reframed sampleStreamRuntime "m" "data: [DONE]" (by decide) (by decide)
      (by decide)).2.2.2.2 [": ping", ""] [] (by decide)⟩

/-! ## The claim about the captured model name -/

/-- C3, as stated, fails.  For the inbound body `{"model":"m","top_p":"0.9"}` the
rewritten body still has the string `top_p`, which does not decode into the
`float64` field `TopP`; `json.Unmarshal` returns an error, `originalModel` stays
empty, and the client event is written with the model name `""`, not `m`. -/
theorem model_lost_on_type_error :
    captureOriginalModel sampleRuntime
        (BodyBytes.marshalled [("model", JValue.string "m"), ("top_p", JValue.string "0.9")]) =
        "" ∧
      handleRequestStream sampleRuntime sampleStreamRuntime
          { contentType := "application/json", body := sampleBodyModelBadTopP }
          ["data: " ++ sampleEventText, ""] =
        Except.ok ["data: event(c1,)\n\n"] :=
  ⟨by decide, rfl⟩

/-- C3, amended.  For a JSON request whose body has a string `model` field `m`,
whatever its other fields are: when `json.Unmarshal` of the rewritten body into
`ChatRequest` returns no error, the model name `handleRequest` captures and
passes to the streaming loop is `m`; when it returns an error, the captured name
is the empty string.  No error is returned exactly when every member of the
rewritten body whose key selects a field of `ChatRequest` holds a value that
fits the field.  Every client event is built with the captured name. -/
theorem model_captured_when_decodable (rt : Runtime) (srt : StreamRuntime) (r : Request)
    (body : Body) (m : String) (lines : List String)
    (hct : stringsContains r.contentType "application/json" = true)
    (hdec : rt.decodeBody r.body = some body)
    (hm : mapGet body "model" = some (JValue.string m)) :
    ∃ out, modifyRequestBody rt r = Except.ok (BodyBytes.marshalled out) ∧
      ((unmarshalState rt out).savedError = none →
        captureOriginalModel rt (BodyBytes.marshalled out) = m ∧
        handleRequestStream rt srt r lines = Except.ok (streamLoop srt m lines).written) ∧
      ((unmarshalState rt out).savedError ≠ none →
        captureOriginalModel rt (BodyBytes.marshalled out) = "" ∧
        handleRequestStream rt srt r lines = Except.ok (streamLoop srt "" lines).written) ∧
      ((unmarshalState rt out).savedError = none ↔
        ∀ e ∈ marshalledMembers out, ∀ f, findField e.1 = some f → fitsField rt f e.2 = true) ∧
      ∀ name data, (transformEvent srt name data).Model = name := by
  have hout := modifyRequestBody_json rt r body hct hdec
  have hmodel : mapGet (clampTopP (convertFrequencyPenalty rt (renameMaxTokens body))) "model" =
      some (JValue.string m) := by
    rw [clampTopP_frame _ _ (by decide),
      convertFrequencyPenalty_frame _ _ _ (by decide) (by decide),
      renameMaxTokens_frame _ _ (by decide) (by decide), hm]
  have hval := unmarshalState_model rt _ m hmodel
  refine ⟨_, hout, ?_, ?_, unmarshalState_savedError rt _, fun _ _ => rfl⟩
  · intro hok
    have hcap : captureOriginalModel rt
        (BodyBytes.marshalled (clampTopP (convertFrequencyPenalty rt (renameMaxTokens body)))) =
        m := by
      simp only [captureOriginalModel, unmarshalChatRequest, hok, hval]
    refine ⟨hcap, ?_⟩
    simp only [handleRequestStream, hout, hcap]
  · intro herr
    have hcap : captureOriginalModel rt
        (BodyBytes.marshalled (clampTopP (convertFrequencyPenalty rt (renameMaxTokens body)))) =
        "" := by
      cases hs : (unmarshalState rt
          (clampTopP (convertFrequencyPenalty rt (renameMaxTokens body)))).savedError with
      | none => exact absurd hs herr
      | some e => simp only [captureOriginalModel, unmarshalChatRequest, hs]
    refine ⟨hcap, ?_⟩
    simp only [handleRequestStream, hout, hcap]

/-- C3, amended, at the body `{"model":"m","max_tokens":256}`, which decodes into
`ChatRequest` without error: the event is written with the model name `m`. -/
theorem model_captured_when_decodable_witness :
    stringsContains "application/json" "application/json" = true ∧
      sampleRuntime.decodeBody sampleBodyModel =
        some [("model", JValue.string "m"), ("max_tokens", JValue.number 256)] ∧
      handleRequestStream sampleRuntime sampleStreamRuntime
          { contentType := "application/json", body := sampleBodyModel }
          ["data: " ++ sampleEventText, ""] =
        Except.ok ["data: event(c1,m)\n\n"] ∧
      ∃ out,
        modifyRequestBody sampleRuntime { contentType := "application/json", body := sampleBodyModel } =
          Except.ok (BodyBytes.marshalled out) ∧
        ((unmarshalState sampleRuntime out).savedError = none →
          captureOriginalModel sampleRuntime (BodyBytes.marshalled out) = "m" ∧
          handleRequestStream sampleRuntime sampleStreamRuntime
              { contentType := "application/json", body := sampleBodyModel }
              ["data: " ++ sampleEventText, ""] =
            Except.ok (streamLoop sampleStreamRuntime "m" ["data: " ++ sampleEventText, ""]).written) ∧
        ((unmarshalState sampleRuntime out).savedError ≠ none →
          captureOriginalModel sampleRuntime (BodyBytes.marshalled out) = "" ∧
          handleRequestStream sampleRuntime sampleStreamRuntime
              { contentType := "application/json", body := sampleBodyModel }
              ["data: " ++ sampleEventText, ""] =
            Except.ok (streamLoop sampleStreamRuntime "" ["data: " ++ sampleEventText, ""]).written) ∧
        ((unmarshalState sampleRuntime out).savedError = none ↔
          ∀ e ∈ marshalledMembers out, ∀ f, findField e.1 = some f →
            fitsField sampleRuntime f e.2 = true) ∧
        ∀ name data, (transformEvent sampleStreamRuntime name data).Model = name :=
  ⟨by decide, rfl, rfl,
    model_captured_when_decodable sampleRuntime sampleStreamRuntime
      { contentType := "application/json", body := sampleBodyModel }
      [("model", JValue.string "m"), ("max_tokens", JValue.number 256)] "m"
      ["data: " ++ sampleEventText, ""] (by decide) rfl rfl⟩

/-! ## Claims about the request body -/

/-- C2, as stated, fails.  A `frequency_penalty` that is a string is still in the
body `modifyRequestBody` produces: the type assertion to `float64` fails, and the
rule neither deletes the key nor adds `repetition_penalty`. -/
theorem non_numeric_frequency_penalty_stays :
    modifyRequestBody sampleRuntime
        { contentType := "application/json", body := sampleBodyPenaltyText } =
      Except.ok (BodyBytes.marshalled [("frequency_penalty", JValue.string "high")]) := by
  rfl

/-- C2, amended.  When `frequency_penalty` is present but not a number, the body
`modifyRequestBody` produces still has `frequency_penalty` with its value
unchanged, and its `repetition_penalty` is as in the input: none is added. -/
theorem non_numeric_frequency_penalty_kept (rt : Runtime) (r : Request) (body : Body)
    (v : JValue)
    (hct : stringsContains r.contentType "application/json" = true)
    (hdec : rt.decodeBody r.body = some body)
    (hv : mapGet body "frequency_penalty" = some v)
    (hnum : ∀ f, v ≠ JValue.number f) :
    ∃ out, modifyRequestBody rt r = Except.ok (BodyBytes.marshalled out) ∧
      mapGet out "frequency_penalty" = some v ∧
      mapGet out "repetition_penalty" = mapGet body "repetition_penalty" := by
  have hconv : convertFrequencyPenalty rt (renameMaxTokens body) = renameMaxTokens body := by
    apply convertFrequencyPenalty_other
    intro f hf
    rw [renameMaxTokens_frame _ _ (by decide) (by decide), hv] at hf
    exact hnum f (Option.some.inj hf)
  refine ⟨_, modifyRequestBody_json rt r body hct hdec, ?_, ?_⟩
  · rw [clampTopP_frame _ _ (by decide), hconv,
      renameMaxTokens_frame _ _ (by decide) (by decide), hv]
  · rw [clampTopP_frame _ _ (by decide), hconv,
      renameMaxTokens_frame _ _ (by decide) (by decide)]

/-- C2, amended, at the body `{"frequency_penalty":"high"}`. -/
theorem non_numeric_frequency_penalty_kept_witness :
    stringsContains "application/json" "application/json" = true ∧
      sampleRuntime.decodeBody sampleBodyPenaltyText =
        some [("frequency_penalty", JValue.string "high")] ∧
      mapGet [("frequency_penalty", JValue.string "high")] "frequency_penalty" =
        some (JValue.string "high") ∧
      (∀ f, JValue.string "high" ≠ JValue.number f) ∧
      ∃ out,
        modifyRequestBody sampleRuntime
            { contentType := "application/json", body := sampleBodyPenaltyText } =
          Except.ok (BodyBytes.marshalled out) ∧
        mapGet out "frequency_penalty" = some (JValue.string "high") ∧
        mapGet out "repetition_penalty" =
          mapGet [("frequency_penalty", JValue.string "high")] "repetition_penalty" :=
  ⟨by decide, rfl, rfl, fun _ h => JValue.noConfusion h,
    non_numeric_frequency_penalty_kept sampleRuntime
      { contentType := "application/json", body := sampleBodyPenaltyText }
      [("frequency_penalty", JValue.string "high")] (JValue.string "high") (by decide) rfl rfl
      (fun _ h => JValue.noConfusion h)⟩

/-- C4.  On a JSON request whose body has `max_tokens` with any value `v`, the
body `modifyRequestBody` produces has `max_new_tokens` with value `v` and has no
`max_tokens` key, whatever `max_new_tokens` held before. -/
theorem max_tokens_renamed (rt : Runtime) (r : Request) (body : Body) (v : JValue)
    (hct : stringsContains r.contentType "application/json" = true)
    (hdec : rt.decodeBody r.body = some body)
    (hv : mapGet body "max_tokens" = some v) :
    ∃ out, modifyRequestBody rt r = Except.ok (BodyBytes.marshalled out) ∧
      mapGet out "max_new_tokens" = some v ∧ mapGet out "max_tokens" = none := by
  refine ⟨_, modifyRequestBody_json rt r body hct hdec, ?_, ?_⟩
  · rw [clampTopP_frame _ _ (by decide),
      convertFrequencyPenalty_frame _ _ _ (by decide) (by decide),
      renameMaxTokens_new body v hv]
  · rw [clampTopP_frame _ _ (by decide),
      convertFrequencyPenalty_frame _ _ _ (by decide) (by decide),
      renameMaxTokens_old]

/-- C4 at a body that has both `max_tokens` and `max_new_tokens`. -/
theorem max_tokens_renamed_witness :
    stringsContains "application/json; charset=utf-8" "application/json" = true ∧
      sampleRuntime.decodeBody sampleBodyMaxTokens =
        some [("max_tokens", JValue.number 256), ("max_new_tokens", JValue.number 1),
          ("user", JValue.string "u1")] ∧
      ∃ out,
        modifyRequestBody sampleRuntime
            { contentType := "application/json; charset=utf-8"
              body := sampleBodyMaxTokens } =
          Except.ok (BodyBytes.marshalled out) ∧
        mapGet out "max_new_tokens" = some (JValue.number 256) ∧
        mapGet out "max_tokens" = none :=
  ⟨by decide, rfl,
    max_tokens_renamed sampleRuntime
      { contentType := "application/json; charset=utf-8"
        body := sampleBodyMaxTokens }
      [("max_tokens", JValue.number 256), ("max_new_tokens", JValue.number 1),
        ("user", JValue.string "u1")]
      (JValue.number 256) (by decide) rfl rfl⟩

/-- C5.  On a JSON request whose body has a numeric `frequency_penalty` `f`, the
body `modifyRequestBody` produces has `repetition_penalty` equal to
`(f + 2) / 2`, computed in `float64` as the source writes it, and has no
`frequency_penalty` key. -/
theorem frequency_penalty_converted (rt : Runtime) (r : Request) (body : Body) (f : Float64)
    (hct : stringsContains r.contentType "application/json" = true)
    (hdec : rt.decodeBody r.body = some body)
    (hv : mapGet body "frequency_penalty" = some (JValue.number f)) :
    ∃ out, modifyRequestBody rt r = Except.ok (BodyBytes.marshalled out) ∧
      mapGet out "repetition_penalty" = some (JValue.number (rt.fdiv (rt.fadd f 2) 2)) ∧
      mapGet out "frequency_penalty" = none := by
  have hv' : mapGet (renameMaxTokens body) "frequency_penalty" = some (JValue.number f) := by
    rw [renameMaxTokens_frame _ _ (by decide) (by decide), hv]
  refine ⟨_, modifyRequestBody_json rt r body hct hdec, ?_, ?_⟩
  · rw [clampTopP_frame _ _ (by decide), convertFrequencyPenalty_number rt _ f hv',
      mapGet_mapDelete_ne _ _ _ (by decide), mapGet_mapSet_self]
  · rw [clampTopP_frame _ _ (by decide), convertFrequencyPenalty_number rt _ f hv',
      mapGet_mapDelete_self]

/-- C5 at the body `{"frequency_penalty":1}`, where `(1 + 2) / 2` is `1.5`. -/
theorem frequency_penalty_converted_witness :
    stringsContains "application/json" "application/json" = true ∧
      sampleRuntime.decodeBody sampleBodyPenaltyOne =
        some [("frequency_penalty", JValue.number 1)] ∧
      sampleRuntime.fdiv (sampleRuntime.fadd 1 2) 2 = 1.5 ∧
      ∃ out,
        modifyRequestBody sampleRuntime
            { contentType := "application/json", body := sampleBodyPenaltyOne } =
          Except.ok (BodyBytes.marshalled out) ∧
        mapGet out "repetition_penalty" =
          some (JValue.number (sampleRuntime.fdiv (sampleRuntime.fadd 1 2) 2)) ∧
        mapGet out "frequency_penalty" = none :=
  ⟨by decide, rfl, by norm_num [Runtime.fdiv, Runtime.fadd, sampleRuntime],
    frequency_penalty_converted sampleRuntime
      { contentType := "application/json", body := sampleBodyPenaltyOne }
      [("frequency_penalty", JValue.number 1)] 1 (by decide) rfl rfl⟩

/-- C6.  On a JSON request whose body has a numeric `top_p` `p`, the `top_p` of
the body `modifyRequestBody` produces is `0.000001` when `p ≤ 0`, `0.999999` when
`p ≥ 1` and `p` itself when `0 < p < 1`; in every case it lies strictly between
0 and 1. -/
theorem top_p_clamped (rt : Runtime) (r : Request) (body : Body) (p : Float64)
    (hct : stringsContains r.contentType "application/json" = true)
    (hdec : rt.decodeBody r.body = some body)
    (hv : mapGet body "top_p" = some (JValue.number p)) :
    ∃ out q, modifyRequestBody rt r = Except.ok (BodyBytes.marshalled out) ∧
      mapGet out "top_p" = some (JValue.number q) ∧
      (p ≤ 0 → q = 0.000001) ∧ (p ≥ 1 → q = 0.999999) ∧ (0 < p → p < 1 → q = p) ∧
      0 < q ∧ q < 1 := by
  have hv' : mapGet (convertFrequencyPenalty rt (renameMaxTokens body)) "top_p" =
      some (JValue.number p) := by
    rw [convertFrequencyPenalty_frame _ _ _ (by decide) (by decide),
      renameMaxTokens_frame _ _ (by decide) (by decide), hv]
  refine ⟨_, if p ≤ 0 then 0.000001 else if p ≥ 1 then 0.999999 else p,
    modifyRequestBody_json rt r body hct hdec, clampTopP_number _ p hv', ?_, ?_, ?_, ?_, ?_⟩
  · intro h
    rw [if_pos h]
  · intro h
    have h0 : ¬ p ≤ 0 := by linarith
    rw [if_neg h0, if_pos h]
  · intro h0 h1
    rw [if_neg (not_le.mpr h0), if_neg (not_le.mpr h1)]
  · split_ifs with h0 h1
    · norm_num
    · norm_num
    · exact not_le.mp h0
  · split_ifs with h0 h1
    · norm_num
    · norm_num
    · exact not_le.mp h1

/-- C6 at the three sample values: `-1` gives `0.000001`, `2` gives `0.999999`
and `0.5` gives `0.5`. -/
theorem top_p_clamped_witness :
    (∃ out q,
        modifyRequestBody sampleRuntime { contentType := "application/json", body := sampleBodyTopPLow } =
          Except.ok (BodyBytes.marshalled out) ∧
        mapGet out "top_p" = some (JValue.number q) ∧
        ((-1 : Float64) ≤ 0 → q = 0.000001) ∧ ((-1 : Float64) ≥ 1 → q = 0.999999) ∧
        (0 < (-1 : Float64) → (-1 : Float64) < 1 → q = -1) ∧ 0 < q ∧ q < 1) ∧
      (∃ out q,
        modifyRequestBody sampleRuntime { contentType := "application/json", body := sampleBodyTopPHigh } =
          Except.ok (BodyBytes.marshalled out) ∧
        mapGet out "top_p" = some (JValue.number q) ∧
        ((2 : Float64) ≤ 0 → q = 0.000001) ∧ ((2 : Float64) ≥ 1 → q = 0.999999) ∧
        (0 < (2 : Float64) → (2 : Float64) < 1 → q = 2) ∧ 0 < q ∧ q < 1) ∧
      (∃ out q,
        modifyRequestBody sampleRuntime { contentType := "application/json", body := sampleBodyTopPMid } =
          Except.ok (BodyBytes.marshalled out) ∧
        mapGet out "top_p" = some (JValue.number q) ∧
        ((0.5 : Float64) ≤ 0 → q = 0.000001) ∧ ((0.5 : Float64) ≥ 1 → q = 0.999999) ∧
        (0 < (0.5 : Float64) → (0.5 : Float64) < 1 → q = 0.5) ∧ 0 < q ∧ q < 1) :=
  ⟨top_p_clamped sampleRuntime { contentType := "application/json", body := sampleBodyTopPLow }
      [("top_p", JValue.number (-1))] (-1) (by decide) rfl rfl,
    top_p_clamped sampleRuntime { contentType := "application/json", body := sampleBodyTopPHigh }
      [("top_p", JValue.number 2)] 2 (by decide) rfl rfl,
    top_p_clamped sampleRuntime { contentType := "application/json", body := sampleBodyTopPMid }
      [("top_p", JValue.number 0.5)] 0.5 (by decide) rfl rfl⟩

/-- C7.  On a JSON request, every key other than `max_tokens`, `max_new_tokens`,
`frequency_penalty`, `repetition_penalty` and `top_p` is bound in the body
`modifyRequestBody` produces exactly when it is bound in the input, and to the
same value. -/
theorem unknown_fields_pass_through (rt : Runtime) (r : Request) (body : Body) (k : String)
    (hct : stringsContains r.contentType "application/json" = true)
    (hdec : rt.decodeBody r.body = some body)
    (h₁ : k ≠ "max_tokens") (h₂ : k ≠ "max_new_tokens") (h₃ : k ≠ "frequency_penalty")
    (h₄ : k ≠ "repetition_penalty") (h₅ : k ≠ "top_p") :
    ∃ out, modifyRequestBody rt r = Except.ok (BodyBytes.marshalled out) ∧
      mapGet out k = mapGet body k := by
  refine ⟨_, modifyRequestBody_json rt r body hct hdec, ?_⟩
  rw [clampTopP_frame _ _ h₅, convertFrequencyPenalty_frame _ _ _ h₃ h₄,
    renameMaxTokens_frame _ _ h₁ h₂]

/-- C7 at the key `user` of a body whose `max_tokens` is renamed. -/
theorem unknown_fields_pass_through_witness :
    stringsContains "application/json" "application/json" = true ∧
      ∃ out,
        modifyRequestBody sampleRuntime
            { contentType := "application/json"
              body := sampleBodyMaxTokens } =
          Except.ok (BodyBytes.marshalled out) ∧
        mapGet out "user" =
          mapGet [("max_tokens", JValue.number 256), ("max_new_tokens", JValue.number 1),
            ("user", JValue.string "u1")] "user" :=
  ⟨by decide,
    unknown_fields_pass_through sampleRuntime
      { contentType := "application/json"
        body := sampleBodyMaxTokens }
      [("max_tokens", JValue.number 256), ("max_new_tokens", JValue.number 1),
        ("user", JValue.string "u1")]
      "user" (by decide) rfl (by decide) (by decide) (by decide) (by decide) (by decide)⟩

/-! ## Claims about re-framing -/

/-- C8.  With the clock and the model name fixed, the output of
`transformSSEChunk` on `a ++ b` is its output on `a` followed by its output on
`b` whenever `a` is empty or ends with a line break.  Hence the streaming loop of
`handleRequest`, which re-frames one blank-line-terminated event at a time,
writes in order what `transformSSEChunk` gives on the whole text: the writes plus
what the still buffered text would give are the re-framing of all the text read,
and for a text that ends with a blank line the writes alone are. -/
theorem reframing_independent_of_chunking (rt : StreamRuntime) (m : String) :
    (∀ a b : String, (a = "" ∨ ∃ a', a = a' ++ "\n") →
        transformSSEChunk rt (a ++ b) m =
          transformSSEChunk rt a m ++ transformSSEChunk rt b m) ∧
      (∀ lines : List String,
        joinWrites (streamLoop rt m lines).written ++
            transformSSEChunk rt (streamLoop rt m lines).buffer m =
          transformSSEChunk rt (linesText lines) m) ∧
      (∀ lines : List String,
        joinWrites (streamLoop rt m (lines ++ [""])).written =
          transformSSEChunk rt (linesText (lines ++ [""])) m) := by
  have key : ∀ lines : List String,
      joinWrites (streamLoop rt m lines).written ++
          transformSSEChunk rt (streamLoop rt m lines).buffer m =
        transformSSEChunk rt (linesText lines) m := by
    intro lines
    have h := foldl_streamStep_text rt m lines { buffer := "", written := [] }
    simpa [streamLoop, joinWrites] using h
  refine ⟨fun a b ha => transformSSEChunk_split rt m a b ha, key, ?_⟩
  intro lines
  have h := key (lines ++ [""])
  rw [streamLoop_blank, transformSSEChunk_empty, String.append_empty] at h
  exact h

/-- The delta object `transformSSEChunk` builds for one upstream choice. -/
theorem transformChoice_delta (choice : SenseChoice) :
    ∃ deltaMap : Body, (transformChoice choice).Delta = JValue.object deltaMap ∧
      mapGet deltaMap "content" =
        (if choice.Delta = "" then none else some (JValue.string choice.Delta)) ∧
      mapGet deltaMap "reasoning_content" =
        (if choice.ReasoningContent = "" then none
          else some (JValue.string choice.ReasoningContent)) ∧
      (∀ k, k ≠ "content" → k ≠ "reasoning_content" → mapGet deltaMap k = none) ∧
      (choice.Delta = "" → choice.ReasoningContent = "" → deltaMap = []) := by
  by_cases hd : choice.Delta = "" <;> by_cases hr : choice.ReasoningContent = ""
  · refine ⟨[], ?_, ?_, ?_, ?_, ?_⟩
    · simp [transformChoice, hd, hr]
    · simp [mapGet, hd]
    · simp [mapGet, hr]
    · intro k _ _
      rfl
    · intro _ _
      rfl
  · refine ⟨[("reasoning_content", JValue.string choice.ReasoningContent)], ?_, ?_, ?_, ?_, ?_⟩
    · simp [transformChoice, hd, hr, mapSet, mapDelete]
    · simp [mapGet, hd]
    · simp [mapGet, hr]
    · intro k _ h₂
      simp [mapGet, Ne.symm h₂]
    · intro _ h
      exact absurd h hr
  · refine ⟨[("content", JValue.string choice.Delta)], ?_, ?_, ?_, ?_, ?_⟩
    · simp [transformChoice, hd, hr, mapSet, mapDelete]
    · simp [mapGet, hd]
    · simp [mapGet, hr]
    · intro k h₁ _
      simp [mapGet, Ne.symm h₁]
    · intro h _
      exact absurd h hd
  · refine ⟨[("reasoning_content", JValue.string choice.ReasoningContent),
      ("content", JValue.string choice.Delta)], ?_, ?_, ?_, ?_, ?_⟩
    · simp [transformChoice, hd, hr, mapSet, mapDelete]
    · simp [mapGet, hd]
    · simp [mapGet, hr]
    · intro k h₁ h₂
      simp [mapGet, Ne.symm h₁, Ne.symm h₂]
    · intro h _
      exact absurd h hd

/-- C9.  For a decodable upstream event, the client event that is marshalled and
emitted has one choice per upstream choice, and the `delta` of the `j`-th one is a
JSON object, not null: it binds `content`, to the upstream text delta, exactly
when that delta is non-empty, binds `reasoning_content`, to the upstream reasoning
delta, exactly when that one is non-empty, and binds no other key; when both are
empty it is the empty object. -/
theorem delta_object_keys (rt : StreamRuntime) (m : String) (data : SenseAPIResponse) :
    (transformEvent rt m data).Choices.length = data.Data.Choices.length ∧
      (∀ (j : Nat) (choice : SenseChoice), data.Data.Choices[j]? = some choice →
        ∃ (out : Choice) (deltaMap : Body),
          (transformEvent rt m data).Choices[j]? = some out ∧
          out.Delta = JValue.object deltaMap ∧ out.Delta ≠ JValue.null ∧
          mapGet deltaMap "content" =
            (if choice.Delta = "" then none else some (JValue.string choice.Delta)) ∧
          mapGet deltaMap "reasoning_content" =
            (if choice.ReasoningContent = "" then none
              else some (JValue.string choice.ReasoningContent)) ∧
          (∀ k, k ≠ "content" → k ≠ "reasoning_content" → mapGet deltaMap k = none) ∧
          (choice.Delta = "" → choice.ReasoningContent = "" → deltaMap = [])) ∧
      ∀ line js, stringsHasPrefix line "data:" = true →
        stringsTrimSpace (sliceFrom line 5) ≠ "[DONE]" →
        rt.unmarshalEvent (stringsTrimSpace (sliceFrom line 5)) = some data →
        rt.marshalEvent (transformEvent rt m data) = some js →
        transformLine rt m "" line = "data: " ++ js ++ "\n\n" := by
  refine ⟨by simp [transformEvent], ?_, ?_⟩
  · intro j choice hj
    obtain ⟨deltaMap, hdelta, hc, hr, hother, hempty⟩ := transformChoice_delta choice
    refine ⟨transformChoice choice, deltaMap, ?_, hdelta, ?_, hc, hr, hother, hempty⟩
    · simp [transformEvent, List.getElem?_map, hj]
    · rw [hdelta]
      exact fun h => JValue.noConfusion h
  · intro line js hp hd hu hm
    exact transformLine_event rt m line js data hp hd hu hm

/-- C10.  With the clock fixed and `json.Marshal` succeeding on client events,
the output of `transformSSEChunk` is the concatenation, in the order of the
lines, of one contribution per line; the contribution of a line that starts with
`data:`, whose trimmed payload is not `[DONE]` and decodes as an upstream event,
is exactly one block `data: <json>\n\n`, where `<json>` is the marshalled client
event whose `id` is the upstream completion id, `object` is
`chat.completion.chunk`, `system_fingerprint` is `cf-openai-sensechat-proxy-123`,
`model` is the model name passed in and `created` is the current Unix time. -/
theorem data_line_block (rt : StreamRuntime) (m chunk : String)
    (hm : ∀ ev, ∃ js, rt.marshalEvent ev = some js) :
    transformSSEChunk rt chunk m =
        joinWrites ((stringsSplitNewline chunk).map (transformLine rt m "")) ∧
      ∀ line data, stringsHasPrefix line "data:" = true →
        stringsTrimSpace (sliceFrom line 5) ≠ "[DONE]" →
        rt.unmarshalEvent (stringsTrimSpace (sliceFrom line 5)) = some data →
        ∃ ev js, rt.marshalEvent ev = some js ∧
          transformLine rt m "" line = "data: " ++ js ++ "\n\n" ∧
          ev.ID = data.Data.ID ∧ ev.Object = "chat.completion.chunk" ∧
          ev.SystemFingerprint = "cf-openai-sensechat-proxy-123" ∧
          ev.Model = m ∧ ev.Created = rt.now := by
  refine ⟨foldl_transformLine_join rt m _, ?_⟩
  intro line data hp hd hu
  obtain ⟨js, hjs⟩ := hm (transformEvent rt m data)
  exact ⟨transformEvent rt m data, js, hjs, transformLine_event rt m line js data hp hd hu hjs,
    rfl, rfl, rfl, rfl, rfl⟩

/-- C10 on a chunk of two lines: a comment line and a decodable event. -/
theorem data_line_block_witness :
    (∀ ev, ∃ js, sampleStreamRuntime.marshalEvent ev = some js) ∧
      transformSSEChunk sampleStreamRuntime
          (": ping\ndata: " ++ sampleEventText ++ "\n")
          "m" =
        ": ping\n\ndata: event(c1,m)\n\n" ∧
      transformSSEChunk sampleStreamRuntime
          (": ping\ndata: " ++ sampleEventText ++ "\n")
          "m" =
        joinWrites
          ((stringsSplitNewline
              (": ping\ndata: " ++ sampleEventText ++ "\n")).map
            (transformLine sampleStreamRuntime "m" "")) :=
  ⟨fun _ => ⟨_, rfl⟩, by decide,
    (data_line_block sampleStreamRuntime "m"
      (": ping\ndata: " ++ sampleEventText ++ "\n")
      (fun _ => ⟨_, rfl⟩)).1⟩

/-! ## Claims about choices and about lines that are not events -/

/-- C11.  For a decodable upstream event, the client event that is marshalled and
emitted has as many choices as the upstream event, in the same order; its `j`-th
choice has the `index` of the `j`-th upstream choice, `logprobs` null, and as
`finish_reason` the upstream finish reason when that is non-empty and JSON null
when it is empty. -/
theorem choices_translated (rt : StreamRuntime) (m : String) (data : SenseAPIResponse) :
    (transformEvent rt m data).Choices.length = data.Data.Choices.length ∧
      (∀ (j : Nat) (choice : SenseChoice), data.Data.Choices[j]? = some choice →
        ∃ out, (transformEvent rt m data).Choices[j]? = some out ∧
          out.Index = choice.Index ∧ out.Logprobs = JValue.null ∧
          out.FinishReason =
            (if choice.FinishReason = "" then JValue.null
              else JValue.string choice.FinishReason)) ∧
      ∀ line js, stringsHasPrefix line "data:" = true →
        stringsTrimSpace (sliceFrom line 5) ≠ "[DONE]" →
        rt.unmarshalEvent (stringsTrimSpace (sliceFrom line 5)) = some data →
        rt.marshalEvent (transformEvent rt m data) = some js →
        transformLine rt m "" line = "data: " ++ js ++ "\n\n" := by
  refine ⟨by simp [transformEvent], ?_, ?_⟩
  · intro j choice hj
    refine ⟨transformChoice choice, ?_, rfl, rfl, ?_⟩
    · simp [transformEvent, List.getElem?_map, hj]
    · by_cases hf : choice.FinishReason = "" <;> simp [transformChoice, hf]
  · intro line js hp hd hu hm
    exact transformLine_event rt m line js data hp hd hu hm

/-- C12.  A line that starts with `data:`, whose trimmed payload is not `[DONE]`
and does not decode as an upstream event, contributes nothing to the output of
`transformSSEChunk`, which returns its string as usual; the output of the chunk
is the concatenation of what the other lines contribute, the same as for the
text without that line. -/
theorem undecodable_line_dropped (rt : StreamRuntime) (m line : String)
    (hp : stringsHasPrefix line "data:" = true)
    (hd : stringsTrimSpace (sliceFrom line 5) ≠ "[DONE]")
    (hu : rt.unmarshalEvent (stringsTrimSpace (sliceFrom line 5)) = none) :
    transformLine rt m "" line = "" ∧
      (∀ (chunk : String) (pre post : List String),
        stringsSplitNewline chunk = pre ++ line :: post →
        transformSSEChunk rt chunk m =
          joinWrites ((pre ++ post).map (transformLine rt m ""))) ∧
      ∀ a b : String, (a = "" ∨ ∃ a', a = a' ++ "\n") → '\n' ∉ line.data →
        transformSSEChunk rt (a ++ (line ++ "\n" ++ b)) m = transformSSEChunk rt (a ++ b) m := by
  have hline : transformLine rt m "" line = "" := by
    unfold transformLine
    rw [if_pos hp]
    simp [hd, hu]
  refine ⟨hline, ?_, ?_⟩
  · intro chunk pre post h
    rw [transformSSEChunk_around rt m chunk line pre post h, hline, String.append_empty,
      List.map_append, joinWrites_concat]
  · intro a b ha hl
    rw [transformSSEChunk_at_line rt m a line b ha hl, hline, String.append_empty,
      transformSSEChunk_split rt m a b ha]

/-- C12 on a chunk whose middle line has a payload that is not an upstream
event. -/
theorem undecodable_line_dropped_witness :
    stringsHasPrefix "data: oops" "data:" = true ∧
      stringsTrimSpace (sliceFrom "data: oops" 5) ≠ "[DONE]" ∧
      sampleStreamRuntime.unmarshalEvent (stringsTrimSpace (sliceFrom "data: oops" 5)) = none ∧
      transformSSEChunk sampleStreamRuntime (": ping\n" ++ ("data: oops" ++ "\n" ++ ": pong\n")) "m" =
        transformSSEChunk sampleStreamRuntime (": ping\n" ++ ": pong\n") "m" ∧
      transformSSEChunk sampleStreamRuntime (": ping\n" ++ ": pong\n") "m" =
        ": ping\n\n: pong\n\n" :=
  ⟨by decide, by decide, rfl,
    (undecodable_line_dropped sampleStreamRuntime "m" "data: oops" (by decide) (by decide)
      rfl).2.2 ": ping\n" ": pong\n" (Or.inr ⟨": ping", rfl⟩) (by decide),
    by decide⟩

/-- C13.  A non-empty line that does not start with `data:` contributes itself
followed by `\n\n`, and this block stands in the output of `transformSSEChunk`
between what the lines before it and the lines after it contribute. -/
theorem other_line_passed_through (rt : StreamRuntime) (m line : String)
    (hp : stringsHasPrefix line "data:" = false) (hl : line ≠ "") :
    transformLine rt m "" line = line ++ "\n\n" ∧
      (∀ (chunk : String) (pre post : List String),
        stringsSplitNewline chunk = pre ++ line :: post →
        transformSSEChunk rt chunk m =
          joinWrites (pre.map (transformLine rt m "")) ++ (line ++ "\n\n") ++
            joinWrites (post.map (transformLine rt m ""))) ∧
      ∀ a b : String, (a = "" ∨ ∃ a', a = a' ++ "\n") → '\n' ∉ line.data →
        transformSSEChunk rt (a ++ (line ++ "\n" ++ b)) m =
          transformSSEChunk rt a m ++ (line ++ "\n\n") ++ transformSSEChunk rt b m := by
  have hline : transformLine rt m "" line = line ++ "\n\n" := by
    unfold transformLine
    simp [hp, hl]
  refine ⟨hline, ?_, ?_⟩
  · intro chunk pre post h
    rw [transformSSEChunk_around rt m chunk line pre post h, hline]
  · intro a b ha hn
    rw [transformSSEChunk_at_line rt m a line b ha hn, hline]

/-- C13 on the line `retry: 5` between an event and a comment. -/
theorem other_line_passed_through_witness :
    stringsHasPrefix "retry: 5" "data:" = false ∧ ("retry: 5" : String) ≠ "" ∧
      transformSSEChunk sampleStreamRuntime
          (("data: " ++ sampleEventText ++ "\n") ++ ("retry: 5" ++ "\n" ++ ": ping\n")) "m" =
        transformSSEChunk sampleStreamRuntime ("data: " ++ sampleEventText ++ "\n") "m" ++
          ("retry: 5" ++ "\n\n") ++ transformSSEChunk sampleStreamRuntime ": ping\n" "m" ∧
      transformSSEChunk sampleStreamRuntime
          (("data: " ++ sampleEventText ++ "\n") ++ ("retry: 5" ++ "\n" ++ ": ping\n")) "m" =
        "data: event(c1,m)\n\nretry: 5\n\n: ping\n\n" :=
  ⟨by decide, by decide,
    (other_line_passed_through sampleStreamRuntime "m" "retry: 5" (by decide) (by decide)).2.2
      ("data: " ++ sampleEventText ++ "\n") ": ping\n"
      (Or.inr ⟨"data: " ++ sampleEventText, rfl⟩) (by decide),
    by decide⟩

/-! ## The claim about the end of the stream -/

/-- C20.  In the streaming loop of `handleRequest`, the lines read after the last
blank line, when the upstream body ends without a blank line, add nothing to what
has been written: the loop ends with them in the buffer, which is never re-framed,
whatever those lines are. -/
theorem unterminated_event_discarded (rt : StreamRuntime) (m : String)
    (lines tail : List String) (ht : ∀ l ∈ tail, l ≠ "") :
    (streamLoop rt m (lines ++ tail)).written = (streamLoop rt m lines).written := by
  unfold streamLoop
  rw [List.foldl_append]
  exact foldl_streamStep_nonblank rt m tail _ ht

/-- C20 on a stream that ends, without a blank line, after a decodable event
and the `[DONE]` sentinel: only the first event, which its blank line ended, is
written. -/
theorem unterminated_event_discarded_witness :
    (∀ l ∈ ["data: " ++ sampleEventText, "data: [DONE]"], l ≠ "") ∧
      (streamLoop sampleStreamRuntime "m"
          ([": ping", ""] ++ ["data: " ++ sampleEventText, "data: [DONE]"])).written =
        (streamLoop sampleStreamRuntime "m" [": ping", ""]).written ∧
      (streamLoop sampleStreamRuntime "m"
          ([": ping", ""] ++ ["data: " ++ sampleEventText, "data: [DONE]"])).written =
        [": ping\n\n"] :=
  ⟨by decide,
    unterminated_event_discarded sampleStreamRuntime "m" [": ping", ""]
      ["data: " ++ sampleEventText, "data: [DONE]"] (by decide),
    by decide⟩

/-! ## Base64 -/

theorem base64_swap_char (i : Fin 64) :
    (fun c : Char => if c = '/' then '_' else c)
        ((fun c : Char => if c = '+' then '-' else c) (base64StdChar i.val)) =
      base64UrlChar i.val := by
  revert i
  decide

theorem base64UrlValue_char (i : Fin 64) : base64UrlValue (base64UrlChar i.val) = some i.val := by
  revert i
  decide

theorem base64UrlChar_mem (i : Fin 64) : base64UrlChar i.val ∈ base64UrlAlphabet := by
  revert i
  decide

theorem base64UrlAlphabet_safe :
    ∀ c ∈ base64UrlAlphabet, c ≠ '+' ∧ c ≠ '/' ∧ c ≠ '=' ∧ c ≠ '.' := by
  decide


/-- The two replacements of `base64UrlEncode` on one character. -/
theorem replace_std_char (i : Nat) (h : i < 64) :
    (if (if base64StdChar i = '+' then '-' else base64StdChar i) = '/' then '_'
      else (if base64StdChar i = '+' then '-' else base64StdChar i)) = base64UrlChar i :=
  base64_swap_char ⟨i, h⟩

/-- After the two replacements, the standard encoding is the unpadded URL-safe
encoding followed by its padding. -/
theorem base64StdEncode_replaced (d : List Byte) :
    ((base64StdEncode d).map (fun c => if c = '+' then '-' else c)).map
        (fun c => if c = '/' then '_' else c) =
      rawUrlEncode d ++ List.replicate ((3 - d.length % 3) % 3) '=' := by
  induction d using base64StdEncode.induct with
  | case1 => rfl
  | case2 a =>
    have ha := a.isLt
    simp only [base64StdEncode, rawUrlEncode, List.map_cons, List.map_nil]
    rw [replace_std_char _ (by omega), replace_std_char _ (by omega)]
    rfl
  | case3 a b =>
    have ha := a.isLt
    have hb := b.isLt
    simp only [base64StdEncode, rawUrlEncode, List.map_cons, List.map_nil]
    rw [replace_std_char _ (by omega), replace_std_char _ (by omega),
      replace_std_char _ (by omega)]
    rfl
  | case4 a b c rest ih =>
    have ha := a.isLt
    have hb := b.isLt
    have hc := c.isLt
    simp only [base64StdEncode, rawUrlEncode, List.map_cons, List.cons_append]
    rw [replace_std_char _ (by omega), replace_std_char _ (by omega),
      replace_std_char _ (by omega), replace_std_char _ (by omega), ih]
    have hl : (3 - (a :: b :: c :: rest).length % 3) % 3 = (3 - rest.length % 3) % 3 := by
      simp only [List.length_cons]
      omega
    rw [hl]

theorem rawUrlEncode_mem (d : List Byte) : ∀ c ∈ rawUrlEncode d, c ∈ base64UrlAlphabet := by
  induction d using rawUrlEncode.induct with
  | case1 => simp [rawUrlEncode]
  | case2 a =>
    have ha := a.isLt
    intro c hc
    simp only [rawUrlEncode, List.mem_cons, List.mem_nil_iff, or_false] at hc
    rcases hc with rfl | rfl
    · exact base64UrlChar_mem ⟨_, by omega⟩
    · exact base64UrlChar_mem ⟨_, by omega⟩
  | case3 a b =>
    have ha := a.isLt
    have hb := b.isLt
    intro c hc
    simp only [rawUrlEncode, List.mem_cons, List.mem_nil_iff, or_false] at hc
    rcases hc with rfl | rfl | rfl
    · exact base64UrlChar_mem ⟨_, by omega⟩
    · exact base64UrlChar_mem ⟨_, by omega⟩
    · exact base64UrlChar_mem ⟨_, by omega⟩
  | case4 a b c rest ih =>
    have ha := a.isLt
    have hb := b.isLt
    have hc := c.isLt
    intro x hx
    simp only [rawUrlEncode, List.mem_cons] at hx
    rcases hx with rfl | rfl | rfl | rfl | hx
    · exact base64UrlChar_mem ⟨_, by omega⟩
    · exact base64UrlChar_mem ⟨_, by omega⟩
    · exact base64UrlChar_mem ⟨_, by omega⟩
    · exact base64UrlChar_mem ⟨_, by omega⟩
    · exact ih x hx

theorem rawUrlEncode_length (d : List Byte) :
    (rawUrlEncode d).length = (4 * d.length + 2) / 3 := by
  induction d using rawUrlEncode.induct with
  | case1 => rfl
  | case2 a => simp [rawUrlEncode]
  | case3 a b => simp [rawUrlEncode]
  | case4 a b c rest ih =>
    simp only [rawUrlEncode, List.length_cons, ih]
    omega

theorem byteOf_val (a : Byte) (n : Nat) (h : n = a.val) : byteOf n = a := by
  apply Fin.ext
  have ha := a.isLt
  simp only [byteOf, h]
  omega

theorem rawUrlDecode_encode (d : List Byte) : rawUrlDecode (rawUrlEncode d) = some d := by
  induction d using rawUrlEncode.induct with
  | case1 => rfl
  | case2 a =>
    have ha := a.isLt
    simp only [rawUrlEncode, rawUrlDecode]
    rw [base64UrlValue_char ⟨a.val / 4, by omega⟩, base64UrlValue_char ⟨a.val % 4 * 16, by omega⟩]
    simp only [Option.some.injEq, List.cons.injEq, and_true]
    exact byteOf_val a _ (by omega)
  | case3 a b =>
    have ha := a.isLt
    have hb := b.isLt
    simp only [rawUrlEncode, rawUrlDecode]
    rw [base64UrlValue_char ⟨a.val / 4, by omega⟩,
      base64UrlValue_char ⟨a.val % 4 * 16 + b.val / 16, by omega⟩,
      base64UrlValue_char ⟨b.val % 16 * 4, by omega⟩]
    simp only [Option.some.injEq, List.cons.injEq, and_true]
    exact ⟨byteOf_val a _ (by omega), byteOf_val b _ (by omega)⟩
  | case4 a b c rest ih =>
    have ha := a.isLt
    have hb := b.isLt
    have hc := c.isLt
    simp only [rawUrlEncode, rawUrlDecode]
    rw [base64UrlValue_char ⟨a.val / 4, by omega⟩,
      base64UrlValue_char ⟨a.val % 4 * 16 + b.val / 16, by omega⟩,
      base64UrlValue_char ⟨b.val % 16 * 4 + c.val / 64, by omega⟩,
      base64UrlValue_char ⟨c.val % 64, by omega⟩, ih]
    simp only [Option.some.injEq, List.cons.injEq, and_true]
    exact ⟨byteOf_val a _ (by omega), byteOf_val b _ (by omega), byteOf_val c _ (by omega)⟩


theorem dropWhile_padding (k : Nat) (l : List Char) (h : ∀ c ∈ l, c ≠ '=') :
    (List.replicate k '=' ++ l).dropWhile (fun c => decide (c ∈ ("=" : String).data)) = l := by
  induction k with
  | zero =>
    cases l with
    | nil => rfl
    | cons c cs =>
      have hc : c ≠ '=' := h c (List.mem_cons_self _ _)
      simp [List.dropWhile, hc]
  | succ k ih =>
    have hmem : '=' ∈ ("=" : String).data := by decide
    simp only [List.replicate_succ, List.cons_append, List.dropWhile, hmem, decide_True]
    exact ih

theorem stringsTrimRight_padding (xs : List Char) (k : Nat) (h : ∀ c ∈ xs, c ≠ '=') :
    stringsTrimRight (String.mk (xs ++ List.replicate k '=')) "=" = String.mk xs := by
  unfold stringsTrimRight
  have hr : (xs ++ List.replicate k '=').reverse = List.replicate k '=' ++ xs.reverse := by
    rw [List.reverse_append, List.reverse_replicate]
  simp only [hr]
  rw [dropWhile_padding k xs.reverse (fun c hc => h c (List.mem_reverse.mp hc)),
    List.reverse_reverse]

/-- The function `base64UrlEncode` computes the unpadded URL-safe encoding. -/
theorem base64UrlEncode_eq_raw (d : List Byte) :
    base64UrlEncode d = String.mk (rawUrlEncode d) := by
  unfold base64UrlEncode stringsReplaceAll
  simp only [base64StdEncode_replaced]
  exact stringsTrimRight_padding _ _
    (fun c hc => (base64UrlAlphabet_safe c (rawUrlEncode_mem d c hc)).2.2.1)

/-- C18.  For every byte string `d`, `base64UrlEncode d` is the unpadded URL-safe
base64 encoding of `d`: its characters are all among `A`-`Z`, `a`-`z`, `0`-`9`,
`-` and `_`, so none is `+`, `/`, `=` or `.`; its length is the ceiling of
`4 * len(d) / 3`; and decoding it as unpadded base64url gives `d` back. -/
theorem base64UrlEncode_unpadded_url_safe (d : List Byte) :
    base64UrlEncode d = String.mk (rawUrlEncode d) ∧
      (∀ c ∈ (base64UrlEncode d).data,
        c ∈ base64UrlAlphabet ∧ c ≠ '+' ∧ c ≠ '/' ∧ c ≠ '=' ∧ c ≠ '.') ∧
      (base64UrlEncode d).length = (4 * d.length + 2) / 3 ∧
      3 * (base64UrlEncode d).length < 4 * d.length + 3 ∧
      4 * d.length ≤ 3 * (base64UrlEncode d).length ∧
      rawUrlDecode (base64UrlEncode d).data = some d := by
  have hlen : (base64UrlEncode d).length = (4 * d.length + 2) / 3 := by
    rw [base64UrlEncode_eq_raw]
    exact rawUrlEncode_length d
  refine ⟨base64UrlEncode_eq_raw d, ?_, hlen, ?_, ?_, ?_⟩
  · intro c hc
    rw [base64UrlEncode_eq_raw] at hc
    exact ⟨rawUrlEncode_mem d c hc, base64UrlAlphabet_safe c (rawUrlEncode_mem d c hc)⟩
  · omega
  · omega
  · rw [base64UrlEncode_eq_raw]
    exact rawUrlDecode_encode d

/-! ## Claims about the token -/

theorem wrapInt64_of_range (x : Int) (hlo : -2 ^ 63 ≤ x) (hhi : x < 2 ^ 63) : wrapInt64 x = x := by
  unfold wrapInt64
  omega

/-- The header of every token is the same JSON text. -/
theorem jsonMarshalHeader_fixed (trt : TokenRuntime) :
    jsonMarshalHeader trt { Alg := "HS256", Typ := "JWT" } =
      Except.ok (stringBytes jwtHeaderText) := by
  rfl

theorem count_dot_base64UrlEncode (d : List Byte) : (base64UrlEncode d).data.count '.' = 0 := by
  rw [List.count_eq_zero]
  intro h
  rw [base64UrlEncode_eq_raw] at h
  exact (base64UrlAlphabet_safe '.' (rawUrlEncode_mem d '.' h)).2.2.2 rfl

/-- The token `encodeJWTToken` returns, segment by segment. -/
theorem encodeJWTToken_eq (trt : TokenRuntime) (now : Int) (ak sk : String)
    (payloadJSON : List Byte)
    (hp : jsonMarshalPayload trt (jwtPayload now ak) = Except.ok payloadJSON) :
    encodeJWTToken trt now ak sk =
      Except.ok
        (base64UrlEncode (stringBytes jwtHeaderText) ++ "." ++ base64UrlEncode payloadJSON ++ "." ++
          base64UrlEncode
            (trt.hmacSHA256 (stringBytes sk)
              (stringBytes
                (base64UrlEncode (stringBytes jwtHeaderText) ++ "." ++
                  base64UrlEncode payloadJSON)))) := by
  unfold encodeJWTToken
  simp only [jsonMarshalHeader_fixed, hp]

/-- C16.  For every access key, secret key and clock value, `encodeJWTToken`
returns no error; its token is `h ++ "." ++ p ++ "." ++ s`, where `h` is
`base64UrlEncode` of the JSON `{"alg":"HS256","typ":"JWT"}`, `p` is
`base64UrlEncode` of the marshalled payload and `s` is `base64UrlEncode` of the
HMAC-SHA256 digest, keyed with the bytes of `sk`, of the text `h ++ "." ++ p`;
the token has exactly two `.` characters. -/
theorem token_three_segments (trt : TokenRuntime) (now : Int) (ak sk : String) :
    ∃ payloadJSON h p s token,
      jsonMarshalPayload trt (jwtPayload now ak) = Except.ok payloadJSON ∧
      h = base64UrlEncode (stringBytes jwtHeaderText) ∧
      p = base64UrlEncode payloadJSON ∧
      s = base64UrlEncode (trt.hmacSHA256 (stringBytes sk) (stringBytes (h ++ "." ++ p))) ∧
      token = h ++ "." ++ p ++ "." ++ s ∧
      encodeJWTToken trt now ak sk = Except.ok token ∧
      token.data.count '.' = 2 := by
  refine ⟨_, _, _, _, _, rfl, rfl, rfl, rfl, rfl, encodeJWTToken_eq trt now ak sk _ rfl, ?_⟩
  simp only [String.data_append, List.count_append, count_dot_base64UrlEncode]
  rfl

/-- C17.  With the clock at `now`, where `now - 5` and `now + 120` are `int64`
values, the token is determined by the access key, the secret key and `now`; the
payload `encodeJWTToken` marshals into the second segment has `iss` equal to the
access key, `nbf = now - 5` and `exp = now + 120`, so `exp - nbf = 125`. -/
theorem token_payload_window (trt : TokenRuntime) (now : Int) (ak sk : String)
    (hlo : -2 ^ 63 + 5 ≤ now) (hhi : now + 120 < 2 ^ 63) :
    (∀ (now' : Int) (ak' sk' : String), now' = now → ak' = ak → sk' = sk →
        encodeJWTToken trt now' ak' sk' = encodeJWTToken trt now ak sk) ∧
      (jwtPayload now ak).Iss = ak ∧
      (jwtPayload now ak).Nbf = now - 5 ∧
      (jwtPayload now ak).Exp = now + 120 ∧
      (jwtPayload now ak).Exp - (jwtPayload now ak).Nbf = 125 ∧
      ∃ payloadJSON h s,
        jsonMarshalPayload trt (jwtPayload now ak) = Except.ok payloadJSON ∧
        payloadJSON =
          stringBytes
            ("\x7b\"iss\":" ++ jsonString trt ak ++ ",\"exp\":" ++ toString (now + 120) ++
              ",\"nbf\":" ++ toString (now - 5) ++ "\x7d") ∧
        encodeJWTToken trt now ak sk =
          Except.ok (h ++ "." ++ base64UrlEncode payloadJSON ++ "." ++ s) := by
  have hexp : (jwtPayload now ak).Exp = now + 120 :=
    wrapInt64_of_range _ (by omega) (by omega)
  have hnbf : (jwtPayload now ak).Nbf = now - 5 :=
    wrapInt64_of_range _ (by omega) (by omega)
  refine ⟨?_, rfl, hnbf, hexp, by rw [hexp, hnbf]; omega, _, _, _, rfl, ?_,
    encodeJWTToken_eq trt now ak sk _ rfl⟩
  · intro now' ak' sk' h₁ h₂ h₃
    rw [h₁, h₂, h₃]
  · rw [hexp, hnbf]
    rfl

/-- C17 at the clock value 1700000000. -/
theorem token_payload_window_witness :
    (-2 ^ 63 + 5 ≤ (1700000000 : Int)) ∧ ((1700000000 : Int) + 120 < 2 ^ 63) ∧
      (jwtPayload 1700000000 "ak1").Exp = 1700000120 ∧
      (jwtPayload 1700000000 "ak1").Nbf = 1699999995 ∧
      (jwtPayload 1700000000 "ak1").Exp - (jwtPayload 1700000000 "ak1").Nbf = 125 :=
  ⟨by decide, by decide,
    (token_payload_window sampleTokenRuntime 1700000000 "ak1" "sk1" (by decide) (by decide)).2.2.2.1,
    (token_payload_window sampleTokenRuntime 1700000000 "ak1" "sk1" (by decide) (by decide)).2.2.1,
    (token_payload_window sampleTokenRuntime 1700000000 "ak1" "sk1" (by decide)
      (by decide)).2.2.2.2.1⟩

/-! ## Facts about headers -/

theorem headerValues_filter_ne (h : HTTPHeader) (k k' : String) (hne : k' ≠ k) :
    headerValues (h.filter (fun e => decide (e.1 ≠ k))) k' = headerValues h k' := by
  induction h with
  | nil => rfl
  | cons e h ih =>
    obtain ⟨k₀, vs⟩ := e
    by_cases h₀ : k₀ = k
    · have h₁ : k₀ ≠ k' := fun e => hne (e ▸ h₀)
      simp [h₀, headerValues] at ih ⊢
      rw [ih]
      simp [h₀ ▸ h₁]
    · simp [h₀, headerValues] at ih ⊢
      rw [ih]

theorem headerValues_headerPut (h : HTTPHeader) (k k' : String) (vs : List String) :
    headerValues (headerPut h k vs) k' = if k = k' then vs else headerValues h k' := by
  unfold headerPut
  by_cases hk : k = k'
  · simp [headerValues, hk]
  · simp only [headerValues, hk, if_false]
    exact headerValues_filter_ne h k k' (fun e => hk e.symm)

theorem headerValues_absent (h : HTTPHeader) (k : String) (hk : k ∉ h.map Prod.fst) :
    headerValues h k = [] := by
  induction h with
  | nil => rfl
  | cons e h ih =>
    obtain ⟨k₀, vs⟩ := e
    simp only [List.map_cons, List.mem_cons, not_or] at hk
    have hne : ¬ k₀ = k := fun e => hk.1 e.symm
    simp only [headerValues, hne, if_false]
    exact ih hk.2

theorem headerValues_addAll (d : HTTPHeader) (k k' : String) (vs : List String) :
    headerValues (vs.foldl (fun d v => headerAdd d k v) d) k' =
      if k = k' then headerValues d k ++ vs else headerValues d k' := by
  induction vs generalizing d with
  | nil => by_cases hk : k = k' <;> simp [hk]
  | cons v vs ih =>
    rw [List.foldl_cons, ih]
    by_cases hk : k = k'
    · simp [hk, headerAdd, headerValues_headerPut]
    · simp [hk, headerAdd, headerValues_headerPut]

theorem headerEntries_keys_nodup (h : HTTPHeader) : ((headerEntries h).map Prod.fst).Nodup := by
  induction h with
  | nil => simp [headerEntries]
  | cons e h ih =>
    have hcons : headerEntries (e :: h) = headerPut (headerEntries h) e.1 e.2 := rfl
    rw [hcons]
    simp only [headerPut, List.map_cons, List.nodup_cons]
    constructor
    · intro hmem
      obtain ⟨e', he', hk⟩ := List.mem_map.mp hmem
      have := (List.mem_filter.mp he').2
      simp at this
      exact this hk
    · exact ih.sublist (List.Sublist.map _ (List.filter_sublist _))

theorem headerValues_headerEntries (h : HTTPHeader) (k : String) :
    headerValues (headerEntries h) k = headerValues h k := by
  induction h with
  | nil => rfl
  | cons e h ih =>
    obtain ⟨k₀, vs⟩ := e
    have hcons : headerEntries ((k₀, vs) :: h) = headerPut (headerEntries h) k₀ vs := rfl
    rw [hcons, headerValues_headerPut]
    by_cases hk : k₀ = k
    · simp [hk, headerValues]
    · simp [hk, headerValues, ih]

theorem headerValues_copyAll (es d : HTTPHeader) (k : String) (hes : (es.map Prod.fst).Nodup) :
    headerValues (es.foldl (fun d e => e.2.foldl (fun d v => headerAdd d e.1 v) d) d) k =
      headerValues d k ++ headerValues es k := by
  induction es generalizing d with
  | nil => simp [headerValues]
  | cons e es ih =>
    obtain ⟨k₀, vs⟩ := e
    simp only [List.map_cons, List.nodup_cons] at hes
    rw [List.foldl_cons, ih _ hes.2, headerValues_addAll]
    by_cases hk : k₀ = k
    · subst hk
      simp [headerValues, headerValues_absent es k₀ hes.1]
    · simp [hk, headerValues]

/-- The copy loops add, to each header of the destination, the values the source
has for it. -/
theorem headerValues_copyHeaders (src dst : HTTPHeader) (k : String) :
    headerValues (copyHeaders src dst) k = headerValues dst k ++ headerValues src k := by
  unfold copyHeaders
  rw [headerValues_copyAll _ _ _ (headerEntries_keys_nodup src), headerValues_headerEntries]

/-! ## Splitting the Authorization header -/

theorem splitChars_ne_nil (sep : Char) (s : List Char) : splitChars sep s ≠ [] := by
  cases s with
  | nil => simp [splitChars]
  | cons c cs =>
    unfold splitChars
    split_ifs
    · simp
    · cases splitChars sep cs <;> simp

theorem splitChars_append (sep : Char) (a b : List Char) :
    splitChars sep (a ++ sep :: b) = splitChars sep a ++ splitChars sep b := by
  induction a with
  | nil => simp [splitChars]
  | cons c a ih =>
    by_cases hc : c = sep
    · simp [splitChars, hc, ih]
    · have hne := splitChars_ne_nil sep a
      cases hsa : splitChars sep a with
      | nil => exact absurd hsa hne
      | cons l ls =>
        have e₁ : splitChars sep (c :: (a ++ sep :: b)) =
            (c :: l) :: (ls ++ splitChars sep b) := by
          rw [splitChars, if_neg hc, ih, hsa]
          rfl
        have e₂ : splitChars sep (c :: a) = (c :: l) :: ls := by
          rw [splitChars, if_neg hc, hsa]
        rw [List.cons_append, e₁, e₂]
        rfl

theorem splitChars_none (sep : Char) (l : List Char) (h : sep ∉ l) : splitChars sep l = [l] := by
  induction l with
  | nil => rfl
  | cons c l ih =>
    have hc : c ≠ sep := fun e => h (e ▸ List.mem_cons_self _ _)
    have hl : sep ∉ l := fun m => h (List.mem_cons_of_mem _ m)
    simp [splitChars, hc, ih hl]

/-- No piece of a split contains the separator. -/
theorem splitChars_pieces (sep : Char) (l : List Char) :
    ∀ p ∈ splitChars sep l, sep ∉ p := by
  induction l with
  | nil => simp [splitChars]
  | cons c l ih =>
    by_cases hc : c = sep
    · intro p hp
      simp only [splitChars, hc, if_true, List.mem_cons] at hp
      rcases hp with rfl | hp
      · simp
      · exact ih p hp
    · have hne := splitChars_ne_nil sep l
      cases hsl : splitChars sep l with
      | nil => exact absurd hsl hne
      | cons q qs =>
        rw [hsl] at ih
        intro p hp
        have e : splitChars sep (c :: l) = (c :: q) :: qs := by
          rw [splitChars, if_neg hc, hsl]
        rw [e, List.mem_cons] at hp
        rcases hp with rfl | hp
        · intro hmem
          rcases List.mem_cons.mp hmem with h₁ | h₁
          · exact hc h₁.symm
          · exact ih q (List.mem_cons_self _ _) h₁
        · exact ih p (List.mem_cons_of_mem _ hp)

/-- Joining the pieces of a split with the separator gives the text back. -/
theorem joinChars_splitChars (sep : Char) (l : List Char) :
    joinChars sep (splitChars sep l) = l := by
  induction l with
  | nil => rfl
  | cons c l ih =>
    have hne := splitChars_ne_nil sep l
    cases hsl : splitChars sep l with
    | nil => exact absurd hsl hne
    | cons q qs =>
      rw [hsl] at ih
      by_cases hc : c = sep
      · have e : splitChars sep (c :: l) = [] :: q :: qs := by
          rw [splitChars, if_pos hc, hsl]
        rw [e]
        show [] ++ sep :: joinChars sep (q :: qs) = c :: l
        rw [ih, hc]
        rfl
      · have e : splitChars sep (c :: l) = (c :: q) :: qs := by
          rw [splitChars, if_neg hc, hsl]
        rw [e]
        cases qs with
        | nil =>
          have hq : q = l := ih
          rw [← hq]
          rfl
        | cons r rs =>
          show (c :: q) ++ sep :: joinChars sep (r :: rs) = c :: l
          rw [← ih]
          rfl

/-- A text that splits into two pieces is the two pieces around one separator,
and neither piece contains the separator. -/
theorem splitChars_pair (sep : Char) (l a b : List Char) (h : splitChars sep l = [a, b]) :
    l = a ++ sep :: b ∧ sep ∉ a ∧ sep ∉ b := by
  have hj := joinChars_splitChars sep l
  rw [h] at hj
  have hp := splitChars_pieces sep l
  rw [h] at hp
  exact ⟨hj.symm, hp a (by simp), hp b (by simp)⟩

theorem containsChars_single (l : List Char) (c : Char) :
    containsChars l [c] = true ↔ c ∈ l := by
  induction l with
  | nil => simp [containsChars]
  | cons x xs ih =>
    simp only [containsChars, Bool.or_eq_true, ih, List.mem_cons]
    constructor
    · rintro (h | h)
      · left
        simp [List.isPrefixOf] at h
        exact h
      · exact Or.inr h
    · rintro (h | h)
      · left
        simp [List.isPrefixOf, h]
      · exact Or.inr h

theorem stringsContains_bar (s : String) : stringsContains s "|" = true ↔ '|' ∈ s.data :=
  containsChars_single s.data '|'

/-- A header value of the form `<scheme> <ak>|<sk>` mints a token for `ak` and
`sk`. -/
theorem tokenArguments_of_form (scheme ak sk : String)
    (h₁ : ' ' ∉ scheme.data) (h₂ : ' ' ∉ ak.data) (h₃ : ' ' ∉ sk.data)
    (h₄ : '|' ∉ ak.data) (h₅ : '|' ∉ sk.data) :
    tokenArguments (scheme ++ " " ++ ak ++ "|" ++ sk) = some (ak, sk) := by
  have hdata : (scheme ++ " " ++ ak ++ "|" ++ sk).data =
      scheme.data ++ ' ' :: (ak.data ++ '|' :: sk.data) := by
    simp [String.data_append]
  have hne : scheme ++ " " ++ ak ++ "|" ++ sk ≠ "" := by
    intro h
    have h' := congrArg String.data h
    rw [hdata] at h'
    simp at h'
  have hrest : ' ' ∉ ak.data ++ '|' :: sk.data := by
    intro h
    rcases List.mem_append.mp h with h | h
    · exact h₂ h
    · rcases List.mem_cons.mp h with h | h
      · exact absurd h (by decide)
      · exact h₃ h
  have hparts : stringsSplit (scheme ++ " " ++ ak ++ "|" ++ sk) ' ' =
      [scheme, String.mk (ak.data ++ '|' :: sk.data)] := by
    unfold stringsSplit
    rw [hdata, splitChars_append, splitChars_none _ _ h₁, splitChars_none _ _ hrest]
    rfl
  have hbar : stringsContains (String.mk (ak.data ++ '|' :: sk.data)) "|" = true := by
    rw [stringsContains_bar]
    simp
  have hpair : stringsSplit (String.mk (ak.data ++ '|' :: sk.data)) '|' = [ak, sk] := by
    unfold stringsSplit
    simp only []
    rw [splitChars_append, splitChars_none _ _ h₄, splitChars_none _ _ h₅]
    rfl
  unfold tokenArguments
  rw [if_pos hne, hparts]
  simp only [hbar, if_true, hpair]

/-- When a token is minted, the two keys are the two sides of the single `|` of
the second space-separated part of the header value. -/
theorem tokenArguments_some (authHeader ak sk : String)
    (h : tokenArguments authHeader = some (ak, sk)) :
    authHeader ≠ "" ∧
      (∃ scheme rest, stringsSplit authHeader ' ' = scheme :: (ak ++ "|" ++ sk) :: rest) ∧
      '|' ∉ ak.data ∧ '|' ∉ sk.data ∧ ' ' ∉ ak.data ∧ ' ' ∉ sk.data := by
  unfold tokenArguments at h
  by_cases hne : authHeader ≠ ""
  · rw [if_pos hne] at h
    cases hparts : stringsSplit authHeader ' ' with
    | nil => rw [hparts] at h; simp at h
    | cons scheme tl =>
      cases tl with
      | nil => rw [hparts] at h; simp at h
      | cons aksk rest =>
        rw [hparts] at h
        simp only [] at h
        by_cases hbar : stringsContains aksk "|" = true
        · rw [if_pos hbar] at h
          have hsplit : stringsSplit aksk '|' = [ak, sk] := by
            cases hp : stringsSplit aksk '|' with
            | nil => rw [hp] at h; simp at h
            | cons a tl =>
              cases tl with
              | nil => rw [hp] at h; simp at h
              | cons b tl =>
                cases tl with
                | nil =>
                  rw [hp] at h
                  simp only [Option.some.injEq, Prod.mk.injEq] at h
                  rw [h.1, h.2]
                | cons c tl => rw [hp] at h; simp at h
          have hchars : splitChars '|' aksk.data = [ak.data, sk.data] := by
            unfold stringsSplit at hsplit
            have hm := congrArg (List.map String.data) hsplit
            simpa [List.map_map, Function.comp_def] using hm
          obtain ⟨hjoin, ha, hb⟩ := splitChars_pair '|' aksk.data ak.data sk.data hchars
          have haksk : aksk = ak ++ "|" ++ sk := by
            apply String.ext
            rw [hjoin]
            simp [String.data_append]
          have hspace : ' ' ∉ aksk.data := by
            have hmem : aksk ∈ stringsSplit authHeader ' ' := by
              rw [hparts]
              simp
            unfold stringsSplit at hmem
            obtain ⟨p, hp, hpe⟩ := List.mem_map.mp hmem
            rw [← hpe]
            exact splitChars_pieces ' ' authHeader.data p hp
          refine ⟨hne, ⟨scheme, rest, by rw [haksk]⟩, ha, hb, ?_, ?_⟩
          · intro hmem
            exact hspace (by rw [hjoin]; exact List.mem_append_left _ hmem)
          · intro hmem
            exact hspace (by
              rw [hjoin]
              exact List.mem_append_right _ (List.mem_cons_of_mem _ hmem))
        · rw [if_neg hbar] at h
          simp at h
  · rw [if_neg hne] at h
    simp at h

/-- The cases in which no token is minted. -/
theorem tokenArguments_none (authHeader : String)
    (h : authHeader = "" ∨ (stringsSplit authHeader ' ').length ≤ 1 ∨
      ∃ aksk, (stringsSplit authHeader ' ')[1]? = some aksk ∧
        ('|' ∉ aksk.data ∨ (stringsSplit aksk '|').length ≠ 2)) :
    tokenArguments authHeader = none := by
  unfold tokenArguments
  by_cases hne : authHeader ≠ ""
  · rw [if_pos hne]
    cases hparts : stringsSplit authHeader ' ' with
    | nil => rfl
    | cons scheme tl =>
      cases tl with
      | nil => rfl
      | cons aksk rest =>
        rw [hparts] at h
        simp only []
        rcases h with h | h | ⟨x, hx, h⟩
        · exact absurd h hne
        · simp at h
        · simp only [List.getElem?_cons_succ, List.getElem?_cons_zero, Option.some.injEq] at hx
          subst hx
          rcases h with h | h
          · have hbar : ¬ stringsContains aksk "|" = true := fun hc =>
              h ((stringsContains_bar aksk).mp hc)
            rw [if_neg hbar]
          · by_cases hbar : stringsContains aksk "|" = true
            · rw [if_pos hbar]
              cases hp : stringsSplit aksk '|' with
              | nil => rfl
              | cons a tl =>
                cases tl with
                | nil => rfl
                | cons b tl =>
                  cases tl with
                  | nil => rw [hp] at h; simp at h
                  | cons c tl => rfl
            · rw [if_neg hbar]
  · rw [if_neg hne]

/-! ## Claims about the Authorization header -/

theorem encodeJWTToken_ok (trt : TokenRuntime) (now : Int) (ak sk : String) :
    ∃ token, encodeJWTToken trt now ak sk = Except.ok token :=
  ⟨_, encodeJWTToken_eq trt now ak sk _ rfl⟩

/-- C14.  On the matched endpoint, for every inbound header: when the
Authorization value is absent or empty, has no second space-separated part, or
that part has no `|` or does not split on `|` into exactly two parts, every
header of the outbound request, Authorization included, has the values of the
inbound one; when the value is `<scheme> <ak>|<sk>`, the outbound Authorization
header is `Bearer ` followed by the token `encodeJWTToken` returns for `ak` and
`sk`, and every other header has the values of the inbound one. -/
theorem authorization_forwarded_or_minted (trt : TokenRuntime) (now : Int)
    (inbound : HTTPHeader) :
    ((headerGet inbound "Authorization" = "" ∨
        (stringsSplit (headerGet inbound "Authorization") ' ').length ≤ 1 ∨
        ∃ aksk, (stringsSplit (headerGet inbound "Authorization") ' ')[1]? = some aksk ∧
          ('|' ∉ aksk.data ∨ (stringsSplit aksk '|').length ≠ 2)) →
      ∀ k, headerValues (outboundHeader trt now inbound) k = headerValues inbound k) ∧
    ∀ scheme ak sk : String, ' ' ∉ scheme.data → ' ' ∉ ak.data → ' ' ∉ sk.data →
      '|' ∉ ak.data → '|' ∉ sk.data →
      headerGet inbound "Authorization" = scheme ++ " " ++ ak ++ "|" ++ sk →
      ∃ token, encodeJWTToken trt now ak sk = Except.ok token ∧
        headerValues (outboundHeader trt now inbound) "Authorization" = ["Bearer " ++ token] ∧
        ∀ k, k ≠ "Authorization" →
          headerValues (outboundHeader trt now inbound) k = headerValues inbound k := by
  have hcopy : ∀ k, headerValues (copyHeaders inbound []) k = headerValues inbound k := by
    intro k
    rw [headerValues_copyHeaders]
    rfl
  refine ⟨?_, ?_⟩
  · intro h k
    unfold outboundHeader
    rw [tokenArguments_none _ h]
    exact hcopy k
  · intro scheme ak sk h₁ h₂ h₃ h₄ h₅ hauth
    obtain ⟨token, htoken⟩ := encodeJWTToken_ok trt now ak sk
    have hout : outboundHeader trt now inbound =
        headerSet (copyHeaders inbound []) "Authorization" ("Bearer " ++ token) := by
      unfold outboundHeader
      rw [hauth, tokenArguments_of_form scheme ak sk h₁ h₂ h₃ h₄ h₅]
      simp only [htoken]
    refine ⟨token, htoken, ?_, ?_⟩
    · rw [hout, headerSet, headerValues_headerPut, if_pos rfl]
    · intro k hk
      rw [hout, headerSet, headerValues_headerPut, if_neg (fun e => hk e.symm)]
      exact hcopy k

/-- C14 at the header `Authorization: Bearer ak1|sk1`: the outbound value is a
minted token, and `Content-Type` is copied. -/
theorem authorization_forwarded_or_minted_witness :
    headerGet sampleInboundHeader "Authorization" = "Bearer" ++ " " ++ "ak1" ++ "|" ++ "sk1" ∧
      ∃ token, encodeJWTToken sampleTokenRuntime 1700000000 "ak1" "sk1" = Except.ok token ∧
        headerValues (outboundHeader sampleTokenRuntime 1700000000 sampleInboundHeader)
            "Authorization" = ["Bearer " ++ token] ∧
        ∀ k, k ≠ "Authorization" →
          headerValues (outboundHeader sampleTokenRuntime 1700000000 sampleInboundHeader) k =
            headerValues sampleInboundHeader k :=
  ⟨by decide,
    (authorization_forwarded_or_minted sampleTokenRuntime 1700000000 sampleInboundHeader).2
      "Bearer" "ak1" "sk1" (by decide) (by decide) (by decide) (by decide) (by decide)
      (by decide)⟩

/-- C15, as stated, fails.  For the header value `Bearer |` a token is minted,
and both keys passed to `encodeJWTToken` are empty. -/
theorem empty_keys_minted :
    tokenArguments "Bearer |" = some ("", "") ∧
      headerValues
          (outboundHeader sampleTokenRuntime 1700000000 [("Authorization", ["Bearer |"])])
          "Authorization" ≠ ["Bearer |"] := by
  decide

/-- C15, amended.  Whenever `handleRequest` mints a token, the access key and the
secret key it passes to `encodeJWTToken` are the text before and the text after
the single `|` of the second space-separated part of the Authorization value;
neither contains `|` or a space.  Either may be empty. -/
theorem minted_keys_are_split_parts (authHeader ak sk : String)
    (h : tokenArguments authHeader = some (ak, sk)) :
    authHeader ≠ "" ∧
      (∃ scheme rest, stringsSplit authHeader ' ' = scheme :: (ak ++ "|" ++ sk) :: rest) ∧
      '|' ∉ ak.data ∧ '|' ∉ sk.data ∧ ' ' ∉ ak.data ∧ ' ' ∉ sk.data :=
  tokenArguments_some authHeader ak sk h

/-- C15, amended, at the header value `Bearer ak1|sk1`. -/
theorem minted_keys_are_split_parts_witness :
    tokenArguments "Bearer ak1|sk1" = some ("ak1", "sk1") ∧
      ("Bearer ak1|sk1" : String) ≠ "" ∧
      (∃ scheme rest,
        stringsSplit "Bearer ak1|sk1" ' ' = scheme :: (("ak1" : String) ++ "|" ++ "sk1") :: rest) ∧
      '|' ∉ ("ak1" : String).data ∧ '|' ∉ ("sk1" : String).data ∧
      ' ' ∉ ("ak1" : String).data ∧ ' ' ∉ ("sk1" : String).data :=
  ⟨by decide, minted_keys_are_split_parts "Bearer ak1|sk1" "ak1" "sk1" (by decide)⟩

/-! ## The claim about the response head -/

/-- The head committed for a final status: the upstream header with the
cross-origin header set, as it is when `WriteHeader` is called. -/
theorem writeResponseHead_head (headersOrigin : String) (resp : UpstreamResponse)
    (hcode : ¬ (100 ≤ resp.StatusCode ∧ resp.StatusCode ≤ 199 ∧ resp.StatusCode ≠ 101)) :
    (writeResponseHead headersOrigin resp { header := [], committed := none }).head =
      (resp.StatusCode,
        headerSet (copyHeaders resp.Header []) "Access-Control-Allow-Origin" headersOrigin) := by
  unfold writeResponseHead
  by_cases hct : headerGet resp.Header "Content-Type" = "text/event-stream"
  · simp [hct, ResponseWriter.WriteHeader, ResponseWriter.setHeader, ResponseWriter.head, hcode]
  · simp [hct, ResponseWriter.WriteHeader, ResponseWriter.setHeader, ResponseWriter.head, hcode]

/-- C19 fails on the code.  For an upstream response with status 200 and
`Content-Type: text/event-stream`, `handleRequest` calls `WriteHeader` before it
sets the three streaming headers, so the head that is sent has the upstream
`Content-Type` `text/event-stream`, without `charset=utf-8`, and has neither
`Cache-Control` nor `Connection`; the three values only reach the header map,
after the head is committed. -/
theorem sse_headers_set_after_head :
    headerGet sampleUpstreamResponse.Header "Content-Type" = "text/event-stream" ∧
      (writeResponseHead "*" sampleUpstreamResponse { header := [], committed := none }).head =
        (200,
          [("Access-Control-Allow-Origin", ["*"]), ("X-Request-Id", ["r1"]),
            ("Content-Type", ["text/event-stream"])]) ∧
      headerValues
          (writeResponseHead "*" sampleUpstreamResponse { header := [], committed := none }).head.2
          "Content-Type" = ["text/event-stream"] ∧
      headerValues
          (writeResponseHead "*" sampleUpstreamResponse { header := [], committed := none }).head.2
          "Cache-Control" = [] ∧
      headerValues
          (writeResponseHead "*" sampleUpstreamResponse { header := [], committed := none }).head.2
          "Connection" = [] ∧
      headerValues
          (writeResponseHead "*" sampleUpstreamResponse { header := [], committed := none }).header
          "Content-Type" = ["text/event-stream; charset=utf-8"] := by
  decide

end SenseProxy
